import Mathlib

set_option maxHeartbeats 1000000
set_option maxRecDepth 4000

/-!
Verification development for the result-buffer subsystem of the mapd-core
analytical query engine (src/QueryEngine/ResultSetIteration.cpp,
src/QueryEngine/ResultSet.h, src/QueryEngine/Descriptors/QueryMemoryDescriptor.h).

Buffers are modelled at byte level: a buffer is a function from byte offset to
byte value, and integer loads are little-endian sign-extending reads, matching
the typed loads performed by read_int_from_buff and the reinterpret_cast reads
in the C++ code. Helper functions whose implementation files are not part of
src/ (ResultSetBufferAccessors.h, ResultSet.cpp, QueryMemoryDescriptor.cpp)
are modelled from the specification and marked as such in their doc comments.
-/

/-- Two's complement representation of an integer in the given number of bits;
models how the C++ code stores signed machine integers in result buffers. -/
def toUnsigned (v : Int) (bits : Nat) : Nat := (v % ((2 : Int) ^ bits)).toNat

/-- Recovers a signed value from its two's complement representation, the way a
sign-extending load of the given bit width interprets it. -/
def toSigned (n : Nat) (bits : Nat) : Int :=
  if n < 2 ^ (bits - 1) then (n : Int) else (n : Int) - 2 ^ bits

/-- Byte number i (little endian) of the two's complement representation of v. -/
def byteAt (v : Int) (bits : Nat) (i : Nat) : Nat := toUnsigned v bits / 256 ^ i % 256

/-- Modelled from the spec: read_int_from_buff (declared in the repository's
buffer-accessor header, which is not under src/) performs a sign-extending load
of compact_sz bytes from the buffer; modelled as a little-endian byte
reconstruction followed by sign extension. -/
def read_int_from_buff (buff : Nat → Nat) (ptr : Nat) (compact_sz : Nat) : Int :=
  toSigned (∑ i in Finset.range compact_sz, buff (ptr + i) * 256 ^ i) (8 * compact_sz)

theorem digits_reconstruct : ∀ (sz n : Nat), n < 256 ^ sz →
    (∑ i in Finset.range sz, n / 256 ^ i % 256 * 256 ^ i) = n := by
  intro sz
  induction sz with
  | zero =>
    intro n h
    simp only [pow_zero, Nat.lt_one_iff] at h
    simp [h]
  | succ k ih =>
    intro n h
    rw [Finset.sum_range_succ']
    have ht : ∀ i, n / 256 ^ (i + 1) % 256 * 256 ^ (i + 1)
        = 256 * (n / 256 / 256 ^ i % 256 * 256 ^ i) := by
      intro i
      have h1 : n / 256 / 256 ^ i = n / 256 ^ (i + 1) := by
        rw [Nat.div_div_eq_div_mul]
        congr 1
        rw [pow_succ']
      rw [h1, pow_succ]
      ring
    have hdiv : n / 256 < 256 ^ k := by
      have h2 : n < 256 ^ k * 256 := by rw [← pow_succ]; exact h
      exact (Nat.div_lt_iff_lt_mul (by norm_num)).mpr h2
    calc (∑ i in Finset.range k, n / 256 ^ (i + 1) % 256 * 256 ^ (i + 1))
          + n / 256 ^ 0 % 256 * 256 ^ 0
        = (∑ i in Finset.range k, 256 * (n / 256 / 256 ^ i % 256 * 256 ^ i)) + n % 256 := by
          rw [Finset.sum_congr rfl (fun i _ => ht i)]
          simp
      _ = 256 * (n / 256) + n % 256 := by
          rw [← Finset.mul_sum, ih (n / 256) hdiv]
      _ = n := Nat.div_add_mod n 256

theorem toSigned_toUnsigned (v : Int) (bits : Nat) (hbits : 0 < bits)
    (hlo : -(2 ^ (bits - 1)) ≤ v) (hhi : v < 2 ^ (bits - 1)) :
    toSigned (toUnsigned v bits) bits = v := by
  have hb : (2 : Int) ^ bits = 2 ^ (bits - 1) * 2 := by
    conv_lhs => rw [show bits = (bits - 1) + 1 by omega]
    rw [pow_succ]
  have hcast : ((2 ^ (bits - 1) : Nat) : Int) = 2 ^ (bits - 1) := by push_cast; rfl
  have hpow : (0 : Int) < 2 ^ (bits - 1) := pow_pos (by norm_num) _
  unfold toSigned toUnsigned
  rcases le_or_lt 0 v with hv | hv
  · have hmod : v % (2 : Int) ^ bits = v := Int.emod_eq_of_lt hv (by omega)
    rw [hmod]
    rw [if_pos (by omega)]
    omega
  · have hmod : v % (2 : Int) ^ bits = v + 2 ^ bits := by
      have h1 : (v + 2 ^ bits) % 2 ^ bits = v + 2 ^ bits :=
        Int.emod_eq_of_lt (by omega) (by omega)
      calc v % (2 : Int) ^ bits = (v + 2 ^ bits) % 2 ^ bits := by
            rw [show v + (2 : Int) ^ bits = v + 2 ^ bits * 1 from by ring]
            rw [Int.add_mul_emod_self_left]
        _ = v + 2 ^ bits := h1
    rw [hmod]
    rw [if_neg (by omega)]
    omega

theorem toUnsigned_lt (v : Int) (sz : Nat) : toUnsigned v (8 * sz) < 256 ^ sz := by
  unfold toUnsigned
  have h1 : (0 : Int) < 2 ^ (8 * sz) := pow_pos (by norm_num) _
  have h2 := Int.emod_nonneg v (ne_of_gt h1)
  have h3 := Int.emod_lt_of_pos v h1
  have h4 : ((256 ^ sz : Nat) : Int) = 2 ^ (8 * sz) := by
    push_cast
    rw [pow_mul]
    norm_num
  omega

/-- A little-endian sign-extending read recovers a value stored byte by byte,
provided the value fits in the read width. -/
theorem read_int_from_buff_eq (buff : Nat → Nat) (ptr sz : Nat) (v : Int)
    (hsz : 0 < sz)
    (hbytes : ∀ i < sz, buff (ptr + i) = byteAt v (8 * sz) i)
    (hlo : -(2 ^ (8 * sz - 1)) ≤ v) (hhi : v < 2 ^ (8 * sz - 1)) :
    read_int_from_buff buff ptr sz = v := by
  unfold read_int_from_buff
  have hsum : (∑ i in Finset.range sz, buff (ptr + i) * 256 ^ i) = toUnsigned v (8 * sz) := by
    rw [Finset.sum_congr rfl (fun i hi => by rw [hbytes i (Finset.mem_range.mp hi)])]
    unfold byteAt
    exact digits_reconstruct sz (toUnsigned v (8 * sz)) (toUnsigned_lt v sz)
  rw [hsum]
  exact toSigned_toUnsigned v (8 * sz) (by omega) hlo hhi

/-! ## Layout descriptor (QueryMemoryDescriptor.h, src) -/

inductive QueryDescriptionType where
  | GroupByPerfectHash
  | GroupByBaselineHash
  | Projection
  | TableFunction
  | NonGroupedAggregate
  | Estimator
deriving DecidableEq

inductive AggKind where
  | kAVG
  | kMIN
  | kMAX
  | kSUM
  | kCOUNT
  | kSAMPLE
  | kOtherAgg
deriving DecidableEq

/-- Argument type classification used by make_avg_target_value
(agg_ti.is_integer / is_decimal / is_fp). -/
inductive AggArgType where
  | integerTy
  | decimalTy
  | fpTy
  | otherTy
deriving DecidableEq

/-- The fields of TargetInfo (Shared/TargetInfo.h, declared outside src/) that
the iteration code under src/ consults. -/
structure TargetInfo where
  is_agg : Bool
  agg_kind : AggKind
  agg_arg_type : AggArgType
  is_real_str_or_array : Bool
deriving DecidableEq

/-- The fields of QueryMemoryDescriptor (QueryMemoryDescriptor.h, src) used by
the iteration code. padded_slot_widths models the per-slot padded byte widths
held by ColSlotContext. -/
structure QueryMemoryDescriptor where
  query_desc_type : QueryDescriptionType
  keyless_hash : Bool
  idx_target_as_key : Int
  group_col_widths : List Nat
  group_col_compact_width : Nat
  entry_count : Nat
  output_columnar : Bool
  padded_slot_widths : List Nat

def QueryMemoryDescriptor.getQueryDescriptionType (q : QueryMemoryDescriptor) :
    QueryDescriptionType := q.query_desc_type

def QueryMemoryDescriptor.hasKeylessHash (q : QueryMemoryDescriptor) : Bool :=
  q.keyless_hash

def QueryMemoryDescriptor.getTargetIdxForKey (q : QueryMemoryDescriptor) : Int :=
  q.idx_target_as_key

/-- groupColWidth(key_idx); the CHECK_LT bound is a hypothesis of the theorems
that use it. -/
def QueryMemoryDescriptor.groupColWidth (q : QueryMemoryDescriptor) (key_idx : Nat) :
    Nat := q.group_col_widths.getD key_idx 0

def QueryMemoryDescriptor.getGroupbyColCount (q : QueryMemoryDescriptor) : Nat :=
  q.group_col_widths.length

def QueryMemoryDescriptor.getKeyCount (q : QueryMemoryDescriptor) : Nat :=
  if q.keyless_hash then 0 else q.getGroupbyColCount

def QueryMemoryDescriptor.getEntryCount (q : QueryMemoryDescriptor) : Nat :=
  q.entry_count

def QueryMemoryDescriptor.setEntryCount (q : QueryMemoryDescriptor) (val : Nat) :
    QueryMemoryDescriptor := { q with entry_count := val }

def QueryMemoryDescriptor.didOutputColumnar (q : QueryMemoryDescriptor) : Bool :=
  q.output_columnar

def QueryMemoryDescriptor.getEffectiveKeyWidth (q : QueryMemoryDescriptor) : Nat :=
  if q.group_col_compact_width ≠ 0 then q.group_col_compact_width else 8

def QueryMemoryDescriptor.getPaddedSlotWidthBytes (q : QueryMemoryDescriptor)
    (slot_idx : Nat) : Nat := q.padded_slot_widths.getD slot_idx 0

def QueryMemoryDescriptor.getPaddedColWidthForRange (q : QueryMemoryDescriptor)
    (off range : Nat) : Nat :=
  ∑ i in Finset.range range, q.getPaddedSlotWidthBytes (off + i)

/-! ## Buffer geometry helpers. The bodies of these helpers live in
ResultSetBufferAccessors.h and QueryMemoryDescriptor.cpp, which are not under
src/; they are modelled from the spec (sections 3 and 4.1: row-wise entries are
an inline key tuple, padding to an 8-byte boundary, then the target slots;
columnar buffers are a leading key region, one component per group column, then
one value region per slot). -/

/-- Modelled from the spec: align_to_int64 (Shared helper, not under src/)
rounds a byte count up to the next multiple of 8. -/
def align_to_int64 (n : Nat) : Nat := (n + 7) / 8 * 8

/-- Modelled from the spec: get_key_bytes_rowwise (ResultSetBufferAccessors.h,
not under src/) - number of key bytes inline in a row-wise entry; zero for
keyless layouts. -/
def get_key_bytes_rowwise (q : QueryMemoryDescriptor) : Nat :=
  if q.hasKeylessHash then 0 else q.getEffectiveKeyWidth * q.getGroupbyColCount

/-- Total padded width of all slots (models getColsSize). -/
def QueryMemoryDescriptor.getColsSize (q : QueryMemoryDescriptor) : Nat :=
  q.getPaddedColWidthForRange 0 q.padded_slot_widths.length

/-- Modelled from the spec: get_row_bytes (ResultSetBufferAccessors.h, not
under src/) - stride of one row-wise entry: aligned key bytes plus the slots. -/
def get_row_bytes (q : QueryMemoryDescriptor) : Nat :=
  align_to_int64 (get_key_bytes_rowwise q) + q.getColsSize

/-- Modelled from the spec: row_ptr_rowwise (ResultSetBufferAccessors.h, not
under src/) - byte offset of the start of entry entry_idx (offset form of the
pointer computation). -/
def row_ptr_rowwise_off (q : QueryMemoryDescriptor) (entry_idx : Nat) : Nat :=
  entry_idx * get_row_bytes q

/-- result_set::get_byteoff_of_slot (ResultSetIteration.cpp lines 116-119, src):
byte offset of slot slot_idx from the beginning of the row targets buffer. -/
def get_byteoff_of_slot (slot_idx : Nat) (q : QueryMemoryDescriptor) : Nat :=
  q.getPaddedColWidthForRange 0 slot_idx

/-- Modelled from the spec: getPrependedGroupColOffInBytes
(QueryMemoryDescriptor.cpp, not under src/) - columnar key region offset of
group column group_idx; each preceding component occupies
align_to_int64(width * entryCount) bytes. -/
def QueryMemoryDescriptor.getPrependedGroupColOffInBytes (q : QueryMemoryDescriptor)
    (group_idx : Nat) : Nat :=
  ∑ j in Finset.range group_idx, align_to_int64 (q.groupColWidth j * q.entry_count)

/-- Modelled from the spec: getPrependedGroupBufferSizeInBytes
(QueryMemoryDescriptor.cpp, not under src/) - total size of the columnar key
region (empty for keyless layouts). -/
def QueryMemoryDescriptor.getPrependedGroupBufferSizeInBytes
    (q : QueryMemoryDescriptor) : Nat :=
  ∑ j in Finset.range q.getKeyCount, align_to_int64 (q.groupColWidth j * q.entry_count)

/-- Modelled from the spec: get_cols_ptr (ResultSetBufferAccessors.h, not under
src/) - offset of the first value column of a columnar buffer, right after the
key region. -/
def get_cols_ptr_off (q : QueryMemoryDescriptor) : Nat :=
  q.getPrependedGroupBufferSizeInBytes

/-- Modelled from the spec: advance_to_next_columnar_target_buff
(ResultSetBufferAccessors.h, not under src/) - skips one value column
(padded width times entry count, aligned to 8 bytes). -/
def advance_to_next_columnar_target_buff (crt_col_off : Nat)
    (q : QueryMemoryDescriptor) (crt_col_slot_idx : Nat) : Nat :=
  align_to_int64 (crt_col_off + q.getPaddedSlotWidthBytes crt_col_slot_idx * q.entry_count)

/-- Modelled from the spec: advance_slot (ResultSetBufferAccessors.h, not under
src/) - AVG and real string/array targets use two slots, everything else one;
with separate varlen storage a non-aggregate varlen target uses one slot. -/
def advance_slot (j : Nat) (target_info : TargetInfo) (separate_varlen_storage : Bool) :
    Nat :=
  if (target_info.is_agg && target_info.agg_kind == AggKind.kAVG)
      || target_info.is_real_str_or_array then
    if separate_varlen_storage && !target_info.is_agg then j + 1 else j + 2
  else j + 1

/-- Loop of advance_col_buff_to_slot (ResultSetIteration.cpp lines 84-111, src),
iterating over the targets; returns none when the loop falls through to
CHECK(false). The CHECK_LT(agg_col_idx, buffer_col_count) sanity bound is not
modelled (getBufferColSlotCount lives outside src/). -/
def advance_col_buff_to_slot_go (q : QueryMemoryDescriptor) (slot_idx : Nat)
    (sep : Bool) : List TargetInfo → Nat → Nat → Option Nat
  | [], _, _ => none
  | agg_info :: rest, agg_col_idx, crt_col_off =>
    if agg_col_idx = slot_idx then some crt_col_off
    else
      let off1 := advance_to_next_columnar_target_buff crt_col_off q agg_col_idx
      if agg_info.is_agg && agg_info.agg_kind == AggKind.kAVG then
        if agg_col_idx + 1 = slot_idx then some off1
        else
          advance_col_buff_to_slot_go q slot_idx sep rest
            (advance_slot agg_col_idx agg_info sep)
            (advance_to_next_columnar_target_buff off1 q (agg_col_idx + 1))
      else
        advance_col_buff_to_slot_go q slot_idx sep rest
          (advance_slot agg_col_idx agg_info sep) off1

/-- advance_col_buff_to_slot (ResultSetIteration.cpp lines 84-111, src): finds
the byte offset of the column for slot_idx in a columnar buffer (offset form;
the buffer base pointer is offset 0). -/
def advance_col_buff_to_slot (q : QueryMemoryDescriptor)
    (targets : List TargetInfo) (slot_idx : Nat) (separate_varlen_storage : Bool) :
    Option Nat :=
  advance_col_buff_to_slot_go q slot_idx separate_varlen_storage targets 0
    (get_cols_ptr_off q)

/-! ## Empty-entry sentinels. The EMPTY_KEY constants are defined in a header
outside src/; the spec (section 3) reserves one sentinel per key width, the
maximum signed value of that width (ResultSet.h's header comment names
EMPTY_KEY_64 / EMPTY_KEY_32 for the 8- and 4-byte widths). -/

/-- Modelled from the spec: 64-bit empty-key sentinel. -/
def EMPTY_KEY_64 : Int := 2 ^ 63 - 1

/-- Modelled from the spec: 32-bit empty-key sentinel. -/
def EMPTY_KEY_32 : Int := 2 ^ 31 - 1

/-- Modelled from the spec: 16-bit empty-key sentinel. -/
def EMPTY_KEY_16 : Int := 2 ^ 15 - 1

/-- Modelled from the spec: 8-bit empty-key sentinel. -/
def EMPTY_KEY_8 : Int := 2 ^ 7 - 1

/-- The sentinel for a given key byte width (dispatch used by the statements). -/
def empty_key_for_width (w : Nat) : Int := 2 ^ (8 * w - 1) - 1

/-! ## Storage (ResultSetStorage; its class definition lives in a header not
under src/, but every member the claims touch - query_mem_desc_, targets_,
target_init_vals_, buff_ - is exercised by ResultSetIteration.cpp, src). -/

structure ResultSetStorage where
  query_mem_desc : QueryMemoryDescriptor
  targets : List TargetInfo
  target_init_vals : List Int
  buff : Nat → Nat

def ResultSetStorage.getEntryCount (s : ResultSetStorage) : Nat :=
  s.query_mem_desc.getEntryCount

/-- ResultSetStorage::isEmptyEntryColumnar (ResultSetIteration.cpp lines
2498-2549, src). Defensive CHECK failures are modelled as none. -/
def isEmptyEntryColumnar (s : ResultSetStorage) (entry_idx : Nat)
    (buff : Nat → Nat) : Option Bool :=
  let q := s.query_mem_desc
  if ¬ q.didOutputColumnar then none
  else if q.getQueryDescriptionType = QueryDescriptionType.NonGroupedAggregate then
    some false
  else if q.getQueryDescriptionType = QueryDescriptionType.TableFunction then
    if entry_idx < s.getEntryCount then some false else none
  else if q.hasKeylessHash then
    if q.getQueryDescriptionType = QueryDescriptionType.GroupByPerfectHash
        ∧ 0 ≤ q.getTargetIdxForKey
        ∧ q.getTargetIdxForKey.toNat < s.target_init_vals.length then
      match advance_col_buff_to_slot q s.targets q.getTargetIdxForKey.toNat false with
      | none => none
      | some col_off =>
        let w := q.getPaddedSlotWidthBytes q.getTargetIdxForKey.toNat
        some (decide (read_int_from_buff buff (col_off + entry_idx * w) w
          = s.target_init_vals.getD q.getTargetIdxForKey.toNat 0))
    else none
  else
    if q.getQueryDescriptionType = QueryDescriptionType.Projection then
      some (decide (read_int_from_buff buff (entry_idx * 8) 8 = EMPTY_KEY_64))
    else
      if 0 < q.getGroupbyColCount then
        let base := q.getPrependedGroupColOffInBytes 0
        match q.groupColWidth 0 with
        | 8 => some (decide (read_int_from_buff buff (base + entry_idx * 8) 8 = EMPTY_KEY_64))
        | 4 => some (decide (read_int_from_buff buff (base + entry_idx * 4) 4 = EMPTY_KEY_32))
        | 2 => some (decide (read_int_from_buff buff (base + entry_idx * 2) 2 = EMPTY_KEY_16))
        | 1 => some (decide (read_int_from_buff buff (base + entry_idx * 1) 1 = EMPTY_KEY_8))
        | _ => none
      else none

/-- ResultSetStorage::isEmptyEntry (ResultSetIteration.cpp lines 2457-2492,
src). Defensive CHECK failures are modelled as none. -/
def isEmptyEntry (s : ResultSetStorage) (entry_idx : Nat) (buff : Nat → Nat) :
    Option Bool :=
  let q := s.query_mem_desc
  if q.getQueryDescriptionType = QueryDescriptionType.NonGroupedAggregate then
    some false
  else if q.didOutputColumnar then isEmptyEntryColumnar s entry_idx buff
  else if q.hasKeylessHash then
    if q.getQueryDescriptionType = QueryDescriptionType.GroupByPerfectHash
        ∧ 0 ≤ q.getTargetIdxForKey
        ∧ q.getTargetIdxForKey.toNat < s.target_init_vals.length then
      let row_off := row_ptr_rowwise_off q entry_idx
      let slot_off := get_byteoff_of_slot q.getTargetIdxForKey.toNat q
      let w := q.getPaddedSlotWidthBytes q.getTargetIdxForKey.toNat
      some (decide (read_int_from_buff buff (row_off + slot_off) w
        = s.target_init_vals.getD q.getTargetIdxForKey.toNat 0))
    else none
  else
    let keys_off := row_ptr_rowwise_off q entry_idx
    match q.getEffectiveKeyWidth with
    | 4 =>
      if q.getQueryDescriptionType ≠ QueryDescriptionType.GroupByPerfectHash then
        some (decide (read_int_from_buff buff keys_off 4 = EMPTY_KEY_32))
      else none
    | 8 => some (decide (read_int_from_buff buff keys_off 8 = EMPTY_KEY_64))
    | _ => none

/-- One-argument overload ResultSetStorage::isEmptyEntry(entry_idx)
(ResultSetIteration.cpp lines 2597-2599, src). -/
def ResultSetStorage.isEmptyEntryAt (s : ResultSetStorage) (entry_idx : Nat) :
    Option Bool :=
  isEmptyEntry s entry_idx s.buff

/-! ## Logical content of a buffer. A buffer stores logical data
(per-entry group key components and per-entry slot values) at the offsets the
geometry prescribes; the predicates below say that a buffer holds given logical
data. keyAt e g is group key component g of entry e; slotAt e t is the value
in slot t of entry e. -/

/-- A row-wise buffer stores the key components inline at the start of each row,
each at the layout's effective key width (spec section 3; ResultSet.h header
comment, src). -/
def StoresRowwiseKeys (q : QueryMemoryDescriptor) (buff : Nat → Nat)
    (keyAt : Nat → Nat → Int) : Prop :=
  ∀ e < q.entry_count, ∀ g < q.getGroupbyColCount, ∀ i < q.getEffectiveKeyWidth,
    buff (row_ptr_rowwise_off q e + g * q.getEffectiveKeyWidth + i)
      = byteAt (keyAt e g) (8 * q.getEffectiveKeyWidth) i

/-- A row-wise buffer stores the slot values after the aligned key bytes, each
slot at its padded width (spec section 3; get_byteoff_of_slot, src). -/
def StoresRowwiseSlots (q : QueryMemoryDescriptor) (buff : Nat → Nat)
    (slotAt : Nat → Nat → Int) : Prop :=
  ∀ e < q.entry_count, ∀ t < q.padded_slot_widths.length,
    ∀ i < q.getPaddedSlotWidthBytes t,
    buff (row_ptr_rowwise_off q e + align_to_int64 (get_key_bytes_rowwise q)
        + get_byteoff_of_slot t q + i)
      = byteAt (slotAt e t) (8 * q.getPaddedSlotWidthBytes t) i

/-- A columnar buffer stores key component g of all entries contiguously in the
leading key region, at that component's group column width (spec section 3). -/
def StoresColumnarKeys (q : QueryMemoryDescriptor) (buff : Nat → Nat)
    (keyAt : Nat → Nat → Int) : Prop :=
  ∀ e < q.entry_count, ∀ g < q.getGroupbyColCount, ∀ i < q.groupColWidth g,
    buff (q.getPrependedGroupColOffInBytes g + e * q.groupColWidth g + i)
      = byteAt (keyAt e g) (8 * q.groupColWidth g) i

/-- A columnar buffer stores the designated key-target slot's column (located
by advance_col_buff_to_slot) with one padded-width value per entry. -/
def StoresColumnarKeySlot (q : QueryMemoryDescriptor) (targets : List TargetInfo)
    (buff : Nat → Nat) (slotAt : Nat → Nat → Int) (kt : Nat) : Prop :=
  ∀ col_off, advance_col_buff_to_slot q targets kt false = some col_off →
    ∀ e < q.entry_count, ∀ i < q.getPaddedSlotWidthBytes kt,
      buff (col_off + e * q.getPaddedSlotWidthBytes kt + i)
        = byteAt (slotAt e kt) (8 * q.getPaddedSlotWidthBytes kt) i

/-! ## Per-layout characterization of isEmptyEntry over stored logical data. -/

theorem read_rowwise_key0 (q : QueryMemoryDescriptor) (buff : Nat → Nat)
    (keyAt : Nat → Nat → Int) (e : Nat)
    (hst : StoresRowwiseKeys q buff keyAt)
    (he : e < q.entry_count) (hg : 0 < q.getGroupbyColCount)
    (hw : 0 < q.getEffectiveKeyWidth)
    (hlo : -(2 ^ (8 * q.getEffectiveKeyWidth - 1)) ≤ keyAt e 0)
    (hhi : keyAt e 0 < 2 ^ (8 * q.getEffectiveKeyWidth - 1)) :
    read_int_from_buff buff (row_ptr_rowwise_off q e) q.getEffectiveKeyWidth
      = keyAt e 0 := by
  apply read_int_from_buff_eq _ _ _ _ hw _ hlo hhi
  intro i hi
  have h := hst e he 0 hg i hi
  simpa using h

theorem read_columnar_key0 (q : QueryMemoryDescriptor) (buff : Nat → Nat)
    (keyAt : Nat → Nat → Int) (e : Nat)
    (hst : StoresColumnarKeys q buff keyAt)
    (he : e < q.entry_count) (hg : 0 < q.getGroupbyColCount)
    (hw : 0 < q.groupColWidth 0)
    (hlo : -(2 ^ (8 * q.groupColWidth 0 - 1)) ≤ keyAt e 0)
    (hhi : keyAt e 0 < 2 ^ (8 * q.groupColWidth 0 - 1)) :
    read_int_from_buff buff
        (q.getPrependedGroupColOffInBytes 0 + e * q.groupColWidth 0)
        (q.groupColWidth 0)
      = keyAt e 0 := by
  apply read_int_from_buff_eq _ _ _ _ hw _ hlo hhi
  intro i hi
  exact hst e he 0 hg i hi

theorem getQueryDescriptionType_eq (q : QueryMemoryDescriptor) :
    q.getQueryDescriptionType = q.query_desc_type := rfl

theorem didOutputColumnar_eq (q : QueryMemoryDescriptor) :
    q.didOutputColumnar = q.output_columnar := rfl

theorem hasKeylessHash_eq (q : QueryMemoryDescriptor) :
    q.hasKeylessHash = q.keyless_hash := rfl

theorem getTargetIdxForKey_eq (q : QueryMemoryDescriptor) :
    q.getTargetIdxForKey = q.idx_target_as_key := rfl

/-- Row-wise, keyed, 8-byte effective key width: empty iff the first key
component reads back as the 64-bit sentinel. -/
theorem isEmptyEntry_rowwise_keyed8 (s : ResultSetStorage) (buff : Nat → Nat)
    (keyAt : Nat → Nat → Int) (e : Nat)
    (hcol : s.query_mem_desc.output_columnar = false)
    (hkl : s.query_mem_desc.keyless_hash = false)
    (hty : s.query_mem_desc.query_desc_type ≠ QueryDescriptionType.NonGroupedAggregate)
    (hw : s.query_mem_desc.getEffectiveKeyWidth = 8)
    (hst : StoresRowwiseKeys s.query_mem_desc buff keyAt)
    (he : e < s.query_mem_desc.entry_count)
    (hg : 0 < s.query_mem_desc.getGroupbyColCount)
    (hlo : -(2 ^ 63) ≤ keyAt e 0) (hhi : keyAt e 0 < 2 ^ 63) :
    isEmptyEntry s e buff = some (decide (keyAt e 0 = EMPTY_KEY_64)) := by
  have hread : read_int_from_buff buff (row_ptr_rowwise_off s.query_mem_desc e)
      s.query_mem_desc.getEffectiveKeyWidth = keyAt e 0 := by
    apply read_rowwise_key0 s.query_mem_desc buff keyAt e hst he hg
    · rw [hw]; norm_num
    · rw [hw]; exact hlo
    · rw [hw]; exact hhi
  rw [hw] at hread
  simp only [isEmptyEntry, getQueryDescriptionType_eq, didOutputColumnar_eq,
    hasKeylessHash_eq, hcol, hkl, hty, hw]
  simp [hread]

/-- Row-wise, keyed, 4-byte effective key width (non perfect hash): empty iff
the first key component reads back as the 32-bit sentinel. -/
theorem isEmptyEntry_rowwise_keyed4 (s : ResultSetStorage) (buff : Nat → Nat)
    (keyAt : Nat → Nat → Int) (e : Nat)
    (hcol : s.query_mem_desc.output_columnar = false)
    (hkl : s.query_mem_desc.keyless_hash = false)
    (hty : s.query_mem_desc.query_desc_type ≠ QueryDescriptionType.NonGroupedAggregate)
    (htyp : s.query_mem_desc.query_desc_type ≠ QueryDescriptionType.GroupByPerfectHash)
    (hw : s.query_mem_desc.getEffectiveKeyWidth = 4)
    (hst : StoresRowwiseKeys s.query_mem_desc buff keyAt)
    (he : e < s.query_mem_desc.entry_count)
    (hg : 0 < s.query_mem_desc.getGroupbyColCount)
    (hlo : -(2 ^ 31) ≤ keyAt e 0) (hhi : keyAt e 0 < 2 ^ 31) :
    isEmptyEntry s e buff = some (decide (keyAt e 0 = EMPTY_KEY_32)) := by
  have hread : read_int_from_buff buff (row_ptr_rowwise_off s.query_mem_desc e)
      s.query_mem_desc.getEffectiveKeyWidth = keyAt e 0 := by
    apply read_rowwise_key0 s.query_mem_desc buff keyAt e hst he hg
    · rw [hw]; norm_num
    · rw [hw]; exact hlo
    · rw [hw]; exact hhi
  rw [hw] at hread
  simp only [isEmptyEntry, getQueryDescriptionType_eq, didOutputColumnar_eq,
    hasKeylessHash_eq, hcol, hkl, hty, hw]
  simp [hread, htyp]

theorem key_bytes_keyless (q : QueryMemoryDescriptor) (hkl : q.keyless_hash = true) :
    align_to_int64 (get_key_bytes_rowwise q) = 0 := by
  simp [get_key_bytes_rowwise, QueryMemoryDescriptor.hasKeylessHash, hkl, align_to_int64]

/-- Row-wise, keyless perfect hash: empty iff the designated key-target slot
reads back as its reserved initial value. -/
theorem isEmptyEntry_rowwise_keyless (s : ResultSetStorage) (buff : Nat → Nat)
    (slotAt : Nat → Nat → Int) (e : Nat)
    (hcol : s.query_mem_desc.output_columnar = false)
    (hkl : s.query_mem_desc.keyless_hash = true)
    (hty : s.query_mem_desc.query_desc_type = QueryDescriptionType.GroupByPerfectHash)
    (hkt0 : 0 ≤ s.query_mem_desc.idx_target_as_key)
    (hktl : s.query_mem_desc.idx_target_as_key.toNat < s.target_init_vals.length)
    (hst : StoresRowwiseSlots s.query_mem_desc buff slotAt)
    (he : e < s.query_mem_desc.entry_count)
    (hkts : s.query_mem_desc.idx_target_as_key.toNat
      < s.query_mem_desc.padded_slot_widths.length)
    (hwpos : 0 < s.query_mem_desc.getPaddedSlotWidthBytes
      s.query_mem_desc.idx_target_as_key.toNat)
    (hlo : -(2 ^ (8 * s.query_mem_desc.getPaddedSlotWidthBytes
        s.query_mem_desc.idx_target_as_key.toNat - 1))
      ≤ slotAt e s.query_mem_desc.idx_target_as_key.toNat)
    (hhi : slotAt e s.query_mem_desc.idx_target_as_key.toNat
      < 2 ^ (8 * s.query_mem_desc.getPaddedSlotWidthBytes
        s.query_mem_desc.idx_target_as_key.toNat - 1)) :
    isEmptyEntry s e buff = some (decide (slotAt e s.query_mem_desc.idx_target_as_key.toNat
      = s.target_init_vals.getD s.query_mem_desc.idx_target_as_key.toNat 0)) := by
  have hread : read_int_from_buff buff
      (row_ptr_rowwise_off s.query_mem_desc e
        + get_byteoff_of_slot s.query_mem_desc.idx_target_as_key.toNat s.query_mem_desc)
      (s.query_mem_desc.getPaddedSlotWidthBytes s.query_mem_desc.idx_target_as_key.toNat)
      = slotAt e s.query_mem_desc.idx_target_as_key.toNat := by
    apply read_int_from_buff_eq _ _ _ _ hwpos _ hlo hhi
    intro i hi
    have h := hst e he s.query_mem_desc.idx_target_as_key.toNat hkts i hi
    rw [key_bytes_keyless s.query_mem_desc hkl] at h
    simpa using h
  have htyne : s.query_mem_desc.query_desc_type ≠ QueryDescriptionType.NonGroupedAggregate := by
    rw [hty]; intro hc; exact QueryDescriptionType.noConfusion hc
  simp only [isEmptyEntry, getQueryDescriptionType_eq, didOutputColumnar_eq,
    hasKeylessHash_eq, getTargetIdxForKey_eq, hcol, hkl, hty, htyne]
  simp [hkt0, hktl, hread]

/-- Columnar, NonGroupedAggregate: never empty. -/
theorem isEmptyEntryColumnar_non_grouped (s : ResultSetStorage) (buff : Nat → Nat)
    (e : Nat)
    (hcol : s.query_mem_desc.output_columnar = true)
    (hty : s.query_mem_desc.query_desc_type = QueryDescriptionType.NonGroupedAggregate) :
    isEmptyEntryColumnar s e buff = some false := by
  simp [isEmptyEntryColumnar, getQueryDescriptionType_eq, didOutputColumnar_eq, hcol, hty]

/-- Row-wise (or dispatching), NonGroupedAggregate: never empty. -/
theorem isEmptyEntry_non_grouped (s : ResultSetStorage) (buff : Nat → Nat) (e : Nat)
    (hty : s.query_mem_desc.query_desc_type = QueryDescriptionType.NonGroupedAggregate) :
    isEmptyEntry s e buff = some false := by
  simp [isEmptyEntry, getQueryDescriptionType_eq, hty]

theorem prepended_off_zero (q : QueryMemoryDescriptor) :
    q.getPrependedGroupColOffInBytes 0 = 0 := by
  simp [QueryMemoryDescriptor.getPrependedGroupColOffInBytes]

/-- Columnar, projection: empty iff the 64-bit key at the head of the buffer
reads back as the 64-bit sentinel. -/
theorem isEmptyEntryColumnar_projection (s : ResultSetStorage) (buff : Nat → Nat)
    (keyAt : Nat → Nat → Int) (e : Nat)
    (hcol : s.query_mem_desc.output_columnar = true)
    (hkl : s.query_mem_desc.keyless_hash = false)
    (hty : s.query_mem_desc.query_desc_type = QueryDescriptionType.Projection)
    (hw0 : s.query_mem_desc.groupColWidth 0 = 8)
    (hst : StoresColumnarKeys s.query_mem_desc buff keyAt)
    (he : e < s.query_mem_desc.entry_count)
    (hg : 0 < s.query_mem_desc.getGroupbyColCount)
    (hlo : -(2 ^ 63) ≤ keyAt e 0) (hhi : keyAt e 0 < 2 ^ 63) :
    isEmptyEntryColumnar s e buff = some (decide (keyAt e 0 = EMPTY_KEY_64)) := by
  have hread : read_int_from_buff buff
      (s.query_mem_desc.getPrependedGroupColOffInBytes 0
        + e * s.query_mem_desc.groupColWidth 0)
      (s.query_mem_desc.groupColWidth 0) = keyAt e 0 := by
    apply read_columnar_key0 s.query_mem_desc buff keyAt e hst he hg
    · rw [hw0]; norm_num
    · rw [hw0]; exact hlo
    · rw [hw0]; exact hhi
  rw [prepended_off_zero, hw0, Nat.zero_add] at hread
  simp only [isEmptyEntryColumnar, getQueryDescriptionType_eq, didOutputColumnar_eq,
    hasKeylessHash_eq, hcol, hkl, hty]
  simp [hread]

/-- Columnar, keyed group-by, 8-byte first group column: empty iff the first
key component reads back as the 64-bit sentinel. -/
theorem isEmptyEntryColumnar_groupby8 (s : ResultSetStorage) (buff : Nat → Nat)
    (keyAt : Nat → Nat → Int) (e : Nat)
    (hcol : s.query_mem_desc.output_columnar = true)
    (hkl : s.query_mem_desc.keyless_hash = false)
    (hty : s.query_mem_desc.query_desc_type = QueryDescriptionType.GroupByPerfectHash
      ∨ s.query_mem_desc.query_desc_type = QueryDescriptionType.GroupByBaselineHash)
    (hw0 : s.query_mem_desc.groupColWidth 0 = 8)
    (hst : StoresColumnarKeys s.query_mem_desc buff keyAt)
    (he : e < s.query_mem_desc.entry_count)
    (hg : 0 < s.query_mem_desc.getGroupbyColCount)
    (hlo : -(2 ^ 63) ≤ keyAt e 0) (hhi : keyAt e 0 < 2 ^ 63) :
    isEmptyEntryColumnar s e buff = some (decide (keyAt e 0 = EMPTY_KEY_64)) := by
  have hread : read_int_from_buff buff
      (s.query_mem_desc.getPrependedGroupColOffInBytes 0
        + e * s.query_mem_desc.groupColWidth 0)
      (s.query_mem_desc.groupColWidth 0) = keyAt e 0 := by
    apply read_columnar_key0 s.query_mem_desc buff keyAt e hst he hg
    · rw [hw0]; norm_num
    · rw [hw0]; exact hlo
    · rw [hw0]; exact hhi
  rw [hw0] at hread
  rcases hty with hty | hty <;>
    simp only [isEmptyEntryColumnar, getQueryDescriptionType_eq, didOutputColumnar_eq,
      hasKeylessHash_eq, hcol, hkl, hty] <;>
    simp [hg, hw0, hread]

/-- Columnar, keyed group-by, 4-byte first group column: empty iff the first
key component reads back as the 32-bit sentinel. -/
theorem isEmptyEntryColumnar_groupby4 (s : ResultSetStorage) (buff : Nat → Nat)
    (keyAt : Nat → Nat → Int) (e : Nat)
    (hcol : s.query_mem_desc.output_columnar = true)
    (hkl : s.query_mem_desc.keyless_hash = false)
    (hty : s.query_mem_desc.query_desc_type = QueryDescriptionType.GroupByPerfectHash
      ∨ s.query_mem_desc.query_desc_type = QueryDescriptionType.GroupByBaselineHash)
    (hw0 : s.query_mem_desc.groupColWidth 0 = 4)
    (hst : StoresColumnarKeys s.query_mem_desc buff keyAt)
    (he : e < s.query_mem_desc.entry_count)
    (hg : 0 < s.query_mem_desc.getGroupbyColCount)
    (hlo : -(2 ^ 31) ≤ keyAt e 0) (hhi : keyAt e 0 < 2 ^ 31) :
    isEmptyEntryColumnar s e buff = some (decide (keyAt e 0 = EMPTY_KEY_32)) := by
  have hread : read_int_from_buff buff
      (s.query_mem_desc.getPrependedGroupColOffInBytes 0
        + e * s.query_mem_desc.groupColWidth 0)
      (s.query_mem_desc.groupColWidth 0) = keyAt e 0 := by
    apply read_columnar_key0 s.query_mem_desc buff keyAt e hst he hg
    · rw [hw0]; norm_num
    · rw [hw0]; exact hlo
    · rw [hw0]; exact hhi
  rw [hw0] at hread
  rcases hty with hty | hty <;>
    simp only [isEmptyEntryColumnar, getQueryDescriptionType_eq, didOutputColumnar_eq,
      hasKeylessHash_eq, hcol, hkl, hty] <;>
    simp [hg, hw0, hread]

/-- Columnar, keyless perfect hash: empty iff the designated key-target slot
reads back as its reserved initial value. -/
theorem isEmptyEntryColumnar_keyless (s : ResultSetStorage) (buff : Nat → Nat)
    (slotAt : Nat → Nat → Int) (e : Nat) (col_off : Nat)
    (hcol : s.query_mem_desc.output_columnar = true)
    (hkl : s.query_mem_desc.keyless_hash = true)
    (hty : s.query_mem_desc.query_desc_type = QueryDescriptionType.GroupByPerfectHash)
    (hkt0 : 0 ≤ s.query_mem_desc.idx_target_as_key)
    (hktl : s.query_mem_desc.idx_target_as_key.toNat < s.target_init_vals.length)
    (hadv : advance_col_buff_to_slot s.query_mem_desc s.targets
      s.query_mem_desc.idx_target_as_key.toNat false = some col_off)
    (hst : StoresColumnarKeySlot s.query_mem_desc s.targets buff slotAt
      s.query_mem_desc.idx_target_as_key.toNat)
    (he : e < s.query_mem_desc.entry_count)
    (hwpos : 0 < s.query_mem_desc.getPaddedSlotWidthBytes
      s.query_mem_desc.idx_target_as_key.toNat)
    (hlo : -(2 ^ (8 * s.query_mem_desc.getPaddedSlotWidthBytes
        s.query_mem_desc.idx_target_as_key.toNat - 1))
      ≤ slotAt e s.query_mem_desc.idx_target_as_key.toNat)
    (hhi : slotAt e s.query_mem_desc.idx_target_as_key.toNat
      < 2 ^ (8 * s.query_mem_desc.getPaddedSlotWidthBytes
        s.query_mem_desc.idx_target_as_key.toNat - 1)) :
    isEmptyEntryColumnar s e buff
      = some (decide (slotAt e s.query_mem_desc.idx_target_as_key.toNat
        = s.target_init_vals.getD s.query_mem_desc.idx_target_as_key.toNat 0)) := by
  have hread : read_int_from_buff buff
      (col_off + e * s.query_mem_desc.getPaddedSlotWidthBytes
        s.query_mem_desc.idx_target_as_key.toNat)
      (s.query_mem_desc.getPaddedSlotWidthBytes s.query_mem_desc.idx_target_as_key.toNat)
      = slotAt e s.query_mem_desc.idx_target_as_key.toNat := by
    apply read_int_from_buff_eq _ _ _ _ hwpos _ hlo hhi
    intro i hi
    exact hst col_off hadv e he i hi
  simp only [isEmptyEntryColumnar, getQueryDescriptionType_eq, didOutputColumnar_eq,
    hasKeylessHash_eq, getTargetIdxForKey_eq, hcol, hkl, hty]
  simp [hkt0, hktl, hadv, hread]

/-- C1: For every result buffer and every entry index i in [0, entryCount()),
isEmptyEntry(i) evaluated over a row-wise layout and over a columnar layout of
equivalent logical data (the same descriptor apart from the columnar flag, with
both buffers holding the same logical keys and slot values at each layout's
offsets) return the same boolean. Table-function and estimator layouts are
columnar-only and out of scope; the keyed hypotheses require the key widths of
the two layouts to coincide, which is what makes the data equivalent. -/
theorem c1_isEmptyEntry_layout_agreement
    (q : QueryMemoryDescriptor) (targets : List TargetInfo) (inits : List Int)
    (buffr buffc : Nat → Nat) (keyAt slotAt : Nat → Nat → Int) (e : Nat)
    (hcol : q.output_columnar = false)
    (he : e < q.entry_count)
    (hty : q.query_desc_type ≠ QueryDescriptionType.TableFunction
      ∧ q.query_desc_type ≠ QueryDescriptionType.Estimator)
    (hkeyed : q.keyless_hash = false →
      q.query_desc_type ≠ QueryDescriptionType.NonGroupedAggregate →
      0 < q.getGroupbyColCount
      ∧ q.groupColWidth 0 = q.getEffectiveKeyWidth
      ∧ (q.getEffectiveKeyWidth = 8
          ∨ (q.getEffectiveKeyWidth = 4
             ∧ q.query_desc_type = QueryDescriptionType.GroupByBaselineHash))
      ∧ -(2 ^ (8 * q.getEffectiveKeyWidth - 1)) ≤ keyAt e 0
      ∧ keyAt e 0 < 2 ^ (8 * q.getEffectiveKeyWidth - 1)
      ∧ StoresRowwiseKeys q buffr keyAt
      ∧ StoresColumnarKeys { q with output_columnar := true } buffc keyAt)
    (hkeyless : q.keyless_hash = true →
      q.query_desc_type ≠ QueryDescriptionType.NonGroupedAggregate →
      q.query_desc_type = QueryDescriptionType.GroupByPerfectHash
      ∧ 0 ≤ q.idx_target_as_key
      ∧ q.idx_target_as_key.toNat < inits.length
      ∧ q.idx_target_as_key.toNat < q.padded_slot_widths.length
      ∧ 0 < q.getPaddedSlotWidthBytes q.idx_target_as_key.toNat
      ∧ (∃ off, advance_col_buff_to_slot { q with output_columnar := true } targets
          q.idx_target_as_key.toNat false = some off)
      ∧ -(2 ^ (8 * q.getPaddedSlotWidthBytes q.idx_target_as_key.toNat - 1))
          ≤ slotAt e q.idx_target_as_key.toNat
      ∧ slotAt e q.idx_target_as_key.toNat
          < 2 ^ (8 * q.getPaddedSlotWidthBytes q.idx_target_as_key.toNat - 1)
      ∧ StoresRowwiseSlots q buffr slotAt
      ∧ StoresColumnarKeySlot { q with output_columnar := true } targets buffc slotAt
          q.idx_target_as_key.toNat) :
    ∃ b, isEmptyEntry ⟨q, targets, inits, buffr⟩ e buffr = some b
      ∧ isEmptyEntryColumnar ⟨{ q with output_columnar := true }, targets, inits, buffc⟩
          e buffc = some b := by
  by_cases hng : q.query_desc_type = QueryDescriptionType.NonGroupedAggregate
  · exact ⟨false, isEmptyEntry_non_grouped _ buffr e hng,
      isEmptyEntryColumnar_non_grouped _ buffc e rfl hng⟩
  · cases hklc : q.keyless_hash with
    | false =>
      obtain ⟨hg, hweq, hw48, hlo, hhi, hsr, hsc⟩ := hkeyed hklc hng
      rcases hw48 with hw8 | ⟨hw4, htyb⟩
      · refine ⟨decide (keyAt e 0 = EMPTY_KEY_64), ?_, ?_⟩
        · exact isEmptyEntry_rowwise_keyed8 ⟨q, targets, inits, buffr⟩ buffr keyAt e
            hcol hklc hng hw8 hsr he hg (by rw [hw8] at hlo; exact hlo)
            (by rw [hw8] at hhi; exact hhi)
        · have hw0 : q.groupColWidth 0 = 8 := by rw [hweq, hw8]
          by_cases hproj : q.query_desc_type = QueryDescriptionType.Projection
          · exact isEmptyEntryColumnar_projection _ buffc keyAt e rfl rfl hproj hw0
              hsc he hg (by rw [hw8] at hlo; exact hlo) (by rw [hw8] at hhi; exact hhi)
          · have htyg : q.query_desc_type = QueryDescriptionType.GroupByPerfectHash
                ∨ q.query_desc_type = QueryDescriptionType.GroupByBaselineHash := by
              cases h : q.query_desc_type
              · exact Or.inl rfl
              · exact Or.inr rfl
              · exact absurd h hproj
              · exact absurd h hty.1
              · exact absurd h hng
              · exact absurd h hty.2
            exact isEmptyEntryColumnar_groupby8 _ buffc keyAt e rfl rfl htyg hw0
              hsc he hg (by rw [hw8] at hlo; exact hlo) (by rw [hw8] at hhi; exact hhi)
      · refine ⟨decide (keyAt e 0 = EMPTY_KEY_32), ?_, ?_⟩
        · exact isEmptyEntry_rowwise_keyed4 ⟨q, targets, inits, buffr⟩ buffr keyAt e
            hcol hklc hng (by rw [htyb]; intro hc; exact QueryDescriptionType.noConfusion hc)
            hw4 hsr he hg (by rw [hw4] at hlo; exact hlo) (by rw [hw4] at hhi; exact hhi)
        · have hw0 : q.groupColWidth 0 = 4 := by rw [hweq, hw4]
          exact isEmptyEntryColumnar_groupby4 _ buffc keyAt e rfl rfl (Or.inr htyb) hw0
            hsc he hg (by rw [hw4] at hlo; exact hlo) (by rw [hw4] at hhi; exact hhi)
    | true =>
      obtain ⟨htyP, hkt0, hktl, hkts, hwpos, ⟨off, hadv⟩, hlo, hhi, hsr, hsc⟩ :=
        hkeyless hklc hng
      rw [hklc] at hadv hsc
      refine ⟨_, isEmptyEntry_rowwise_keyless ⟨q, targets, inits, buffr⟩ buffr slotAt e
        hcol hklc htyP hkt0 hktl hsr he hkts hwpos hlo hhi, ?_⟩
      exact isEmptyEntryColumnar_keyless _ buffc slotAt e off rfl rfl htyP hkt0 hktl
        hadv hsc he hwpos hlo hhi

/-- Concrete row-wise layout witnessing the layout-agreement theorem: baseline
hash, one 8-byte group key, one 8-byte slot, two entries (entry 0 holds key 7,
entry 1 is empty). -/
def c1q : QueryMemoryDescriptor :=
  ⟨QueryDescriptionType.GroupByBaselineHash, false, -1, [8], 8, 2, false, [8]⟩

def c1targets : List TargetInfo :=
  [⟨false, AggKind.kOtherAgg, AggArgType.otherTy, false⟩]

def c1keyAt : Nat → Nat → Int := fun e _ => if e = 0 then 7 else EMPTY_KEY_64

def c1slotAt : Nat → Nat → Int := fun _ _ => 0

/-- The row-wise buffer for c1q: 16-byte rows, 8 key bytes then one 8-byte slot. -/
def c1buffr : Nat → Nat := fun a =>
  if a % 16 < 8 then byteAt (c1keyAt (a / 16) 0) 64 (a % 16)
  else byteAt (c1slotAt (a / 16) 0) 64 (a % 16 - 8)

/-- The columnar buffer for the same logical data: 16-byte key region, then the
slot column. -/
def c1buffc : Nat → Nat := fun a =>
  if a < 16 then byteAt (c1keyAt (a / 8) 0) 64 (a % 8)
  else byteAt (c1slotAt ((a - 16) / 8) 0) 64 ((a - 16) % 8)

theorem c1_isEmptyEntry_layout_agreement_witness :
    ∃ b, isEmptyEntry ⟨c1q, c1targets, [0], c1buffr⟩ 1 c1buffr = some b
      ∧ isEmptyEntryColumnar
          ⟨{ c1q with output_columnar := true }, c1targets, [0], c1buffc⟩ 1 c1buffc
          = some b :=
  c1_isEmptyEntry_layout_agreement c1q c1targets [0] c1buffr c1buffc c1keyAt c1slotAt 1
    rfl (by decide) ⟨by decide, by decide⟩
    (fun _ _ => ⟨by decide, by decide, Or.inl (by decide), by decide, by decide,
      by unfold StoresRowwiseKeys; decide, by unfold StoresColumnarKeys; decide⟩)
    (fun h _ => absurd h (by decide))

/-- Columnar, keyed group-by, 2-byte first group column: empty iff the first
key component reads back as the 16-bit sentinel. -/
theorem isEmptyEntryColumnar_groupby2 (s : ResultSetStorage) (buff : Nat → Nat)
    (keyAt : Nat → Nat → Int) (e : Nat)
    (hcol : s.query_mem_desc.output_columnar = true)
    (hkl : s.query_mem_desc.keyless_hash = false)
    (hty : s.query_mem_desc.query_desc_type = QueryDescriptionType.GroupByPerfectHash
      ∨ s.query_mem_desc.query_desc_type = QueryDescriptionType.GroupByBaselineHash)
    (hw0 : s.query_mem_desc.groupColWidth 0 = 2)
    (hst : StoresColumnarKeys s.query_mem_desc buff keyAt)
    (he : e < s.query_mem_desc.entry_count)
    (hg : 0 < s.query_mem_desc.getGroupbyColCount)
    (hlo : -(2 ^ 15) ≤ keyAt e 0) (hhi : keyAt e 0 < 2 ^ 15) :
    isEmptyEntryColumnar s e buff = some (decide (keyAt e 0 = EMPTY_KEY_16)) := by
  have hread : read_int_from_buff buff
      (s.query_mem_desc.getPrependedGroupColOffInBytes 0
        + e * s.query_mem_desc.groupColWidth 0)
      (s.query_mem_desc.groupColWidth 0) = keyAt e 0 := by
    apply read_columnar_key0 s.query_mem_desc buff keyAt e hst he hg
    · rw [hw0]; norm_num
    · rw [hw0]; exact hlo
    · rw [hw0]; exact hhi
  rw [hw0] at hread
  rcases hty with hty | hty <;>
    simp only [isEmptyEntryColumnar, getQueryDescriptionType_eq, didOutputColumnar_eq,
      hasKeylessHash_eq, hcol, hkl, hty] <;>
    simp [hg, hw0, hread]

/-- Columnar, keyed group-by, 1-byte first group column: empty iff the first
key component reads back as the 8-bit sentinel. -/
theorem isEmptyEntryColumnar_groupby1 (s : ResultSetStorage) (buff : Nat → Nat)
    (keyAt : Nat → Nat → Int) (e : Nat)
    (hcol : s.query_mem_desc.output_columnar = true)
    (hkl : s.query_mem_desc.keyless_hash = false)
    (hty : s.query_mem_desc.query_desc_type = QueryDescriptionType.GroupByPerfectHash
      ∨ s.query_mem_desc.query_desc_type = QueryDescriptionType.GroupByBaselineHash)
    (hw0 : s.query_mem_desc.groupColWidth 0 = 1)
    (hst : StoresColumnarKeys s.query_mem_desc buff keyAt)
    (he : e < s.query_mem_desc.entry_count)
    (hg : 0 < s.query_mem_desc.getGroupbyColCount)
    (hlo : -(2 ^ 7) ≤ keyAt e 0) (hhi : keyAt e 0 < 2 ^ 7) :
    isEmptyEntryColumnar s e buff = some (decide (keyAt e 0 = EMPTY_KEY_8)) := by
  have hread : read_int_from_buff buff
      (s.query_mem_desc.getPrependedGroupColOffInBytes 0
        + e * s.query_mem_desc.groupColWidth 0)
      (s.query_mem_desc.groupColWidth 0) = keyAt e 0 := by
    apply read_columnar_key0 s.query_mem_desc buff keyAt e hst he hg
    · rw [hw0]; norm_num
    · rw [hw0]; exact hlo
    · rw [hw0]; exact hhi
  rw [hw0] at hread
  rw [Nat.mul_one] at hread
  rcases hty with hty | hty <;>
    simp only [isEmptyEntryColumnar, getQueryDescriptionType_eq, didOutputColumnar_eq,
      hasKeylessHash_eq, hcol, hkl, hty] <;>
    simp [hg, hw0, hread]

/-- Physical width of stored key component g: the uniform effective key width
for row-wise layouts, the per-column group width for columnar layouts. -/
def keyComponentWidth (q : QueryMemoryDescriptor) (g : Nat) : Nat :=
  if q.output_columnar then q.groupColWidth g else q.getEffectiveKeyWidth

/-- The entry's logical key tuple equals the reserved empty-key tuple (every
component is the sentinel of its stored width). -/
def KeyTupleIsEmpty (q : QueryMemoryDescriptor) (keyAt : Nat → Nat → Int)
    (e : Nat) : Prop :=
  ∀ g < q.getGroupbyColCount, keyAt e g = empty_key_for_width (keyComponentWidth q g)

theorem some_decide_eq_some_true (p : Prop) [Decidable p] :
    (some (decide p) = some true) ↔ p := by simp

theorem isEmptyEntry_dispatch_columnar (s : ResultSetStorage) (buff : Nat → Nat)
    (e : Nat)
    (hty : s.query_mem_desc.query_desc_type ≠ QueryDescriptionType.NonGroupedAggregate)
    (hcol : s.query_mem_desc.output_columnar = true) :
    isEmptyEntry s e buff = isEmptyEntryColumnar s e buff := by
  simp [isEmptyEntry, getQueryDescriptionType_eq, didOutputColumnar_eq, hty, hcol]

theorem empty_key_w8 : empty_key_for_width 8 = EMPTY_KEY_64 := by
  norm_num [empty_key_for_width, EMPTY_KEY_64]

theorem empty_key_w4 : empty_key_for_width 4 = EMPTY_KEY_32 := by
  norm_num [empty_key_for_width, EMPTY_KEY_32]

theorem empty_key_w2 : empty_key_for_width 2 = EMPTY_KEY_16 := by
  norm_num [empty_key_for_width, EMPTY_KEY_16]

theorem empty_key_w1 : empty_key_for_width 1 = EMPTY_KEY_8 := by
  norm_num [empty_key_for_width, EMPTY_KEY_8]

/-- C2: For every storage and every entry index, isEmptyEntry returns true if
and only if the entry's key tuple equals the reserved empty-key sentinel for
the layout's key width (64/32/16/8-bit), or, for keyless layouts, if and only
if the designated key-target slot equals its reserved initial value. Scoped to
layouts that possess a key tuple or a keyless designation (group-by and
projection layouts); the sentinel-propagation hypothesis is the initialization
invariant that empty entries are written with every key component set to its
sentinel. -/
theorem c2_isEmptyEntry_sentinel_iff
    (q : QueryMemoryDescriptor) (targets : List TargetInfo) (inits : List Int)
    (buff : Nat → Nat) (keyAt slotAt : Nat → Nat → Int) (e : Nat)
    (he : e < q.entry_count)
    (hty : q.query_desc_type ≠ QueryDescriptionType.NonGroupedAggregate
      ∧ q.query_desc_type ≠ QueryDescriptionType.TableFunction
      ∧ q.query_desc_type ≠ QueryDescriptionType.Estimator)
    (hkeyed : q.keyless_hash = false →
      0 < q.getGroupbyColCount
      ∧ (q.output_columnar = false →
          (q.getEffectiveKeyWidth = 8
            ∨ (q.getEffectiveKeyWidth = 4
               ∧ q.query_desc_type ≠ QueryDescriptionType.GroupByPerfectHash))
          ∧ StoresRowwiseKeys q buff keyAt)
      ∧ (q.output_columnar = true →
          (q.groupColWidth 0 = 8 ∨ q.groupColWidth 0 = 4 ∨ q.groupColWidth 0 = 2
            ∨ q.groupColWidth 0 = 1)
          ∧ (q.query_desc_type = QueryDescriptionType.Projection →
              q.groupColWidth 0 = 8)
          ∧ StoresColumnarKeys q buff keyAt)
      ∧ -(2 ^ (8 * keyComponentWidth q 0 - 1)) ≤ keyAt e 0
      ∧ keyAt e 0 < 2 ^ (8 * keyComponentWidth q 0 - 1)
      ∧ (keyAt e 0 = empty_key_for_width (keyComponentWidth q 0)
          → KeyTupleIsEmpty q keyAt e))
    (hkeyless : q.keyless_hash = true →
      q.query_desc_type = QueryDescriptionType.GroupByPerfectHash
      ∧ 0 ≤ q.idx_target_as_key
      ∧ q.idx_target_as_key.toNat < inits.length
      ∧ q.idx_target_as_key.toNat < q.padded_slot_widths.length
      ∧ 0 < q.getPaddedSlotWidthBytes q.idx_target_as_key.toNat
      ∧ (q.output_columnar = false → StoresRowwiseSlots q buff slotAt)
      ∧ (q.output_columnar = true →
          (∃ off, advance_col_buff_to_slot q targets q.idx_target_as_key.toNat false
            = some off)
          ∧ StoresColumnarKeySlot q targets buff slotAt q.idx_target_as_key.toNat)
      ∧ -(2 ^ (8 * q.getPaddedSlotWidthBytes q.idx_target_as_key.toNat - 1))
          ≤ slotAt e q.idx_target_as_key.toNat
      ∧ slotAt e q.idx_target_as_key.toNat
          < 2 ^ (8 * q.getPaddedSlotWidthBytes q.idx_target_as_key.toNat - 1)) :
    (q.keyless_hash = false →
      (ResultSetStorage.isEmptyEntryAt ⟨q, targets, inits, buff⟩ e = some true
        ↔ KeyTupleIsEmpty q keyAt e))
    ∧ (q.keyless_hash = true →
      (ResultSetStorage.isEmptyEntryAt ⟨q, targets, inits, buff⟩ e = some true
        ↔ slotAt e q.idx_target_as_key.toNat
            = inits.getD q.idx_target_as_key.toNat 0)) := by
  constructor
  · intro hkl
    obtain ⟨hg, hrow, hcolh, hlo, hhi, hsent⟩ := hkeyed hkl
    show isEmptyEntry ⟨q, targets, inits, buff⟩ e buff = some true ↔ _
    cases hoc : q.output_columnar with
    | false =>
      have hkcw : keyComponentWidth q 0 = q.getEffectiveKeyWidth := by
        simp [keyComponentWidth, hoc]
      rw [hkcw] at hlo hhi hsent
      obtain ⟨hw48, hst⟩ := hrow hoc
      rcases hw48 with hw8 | ⟨hw4, hnp⟩
      · rw [isEmptyEntry_rowwise_keyed8 ⟨q, targets, inits, buff⟩ buff keyAt e hoc hkl
          hty.1 hw8 hst he hg (by rw [hw8] at hlo; exact hlo)
          (by rw [hw8] at hhi; exact hhi)]
        rw [some_decide_eq_some_true]
        constructor
        · intro hP
          exact hsent (by rw [hw8, empty_key_w8]; exact hP)
        · intro hQ
          rw [hQ 0 hg, hkcw, hw8, empty_key_w8]
      · rw [isEmptyEntry_rowwise_keyed4 ⟨q, targets, inits, buff⟩ buff keyAt e hoc hkl
          hty.1 hnp hw4 hst he hg (by rw [hw4] at hlo; exact hlo)
          (by rw [hw4] at hhi; exact hhi)]
        rw [some_decide_eq_some_true]
        constructor
        · intro hP
          exact hsent (by rw [hw4, empty_key_w4]; exact hP)
        · intro hQ
          rw [hQ 0 hg, hkcw, hw4, empty_key_w4]
    | true =>
      have hkcw : keyComponentWidth q 0 = q.groupColWidth 0 := by
        simp [keyComponentWidth, hoc]
      rw [hkcw] at hlo hhi hsent
      obtain ⟨hw, hproj8, hst⟩ := hcolh hoc
      rw [isEmptyEntry_dispatch_columnar ⟨q, targets, inits, buff⟩ buff e hty.1 hoc]
      by_cases hproj : q.query_desc_type = QueryDescriptionType.Projection
      · have hw0 := hproj8 hproj
        rw [isEmptyEntryColumnar_projection ⟨q, targets, inits, buff⟩ buff keyAt e hoc
          hkl hproj hw0 hst he hg (by rw [hw0] at hlo; exact hlo)
          (by rw [hw0] at hhi; exact hhi)]
        rw [some_decide_eq_some_true]
        constructor
        · intro hP
          exact hsent (by rw [hw0, empty_key_w8]; exact hP)
        · intro hQ
          rw [hQ 0 hg, hkcw, hw0, empty_key_w8]
      · have htyg : q.query_desc_type = QueryDescriptionType.GroupByPerfectHash
            ∨ q.query_desc_type = QueryDescriptionType.GroupByBaselineHash := by
          cases h : q.query_desc_type
          · exact Or.inl rfl
          · exact Or.inr rfl
          · exact absurd h hproj
          · exact absurd h hty.2.1
          · exact absurd h hty.1
          · exact absurd h hty.2.2
        rcases hw with hw0 | hw0 | hw0 | hw0
        · rw [isEmptyEntryColumnar_groupby8 ⟨q, targets, inits, buff⟩ buff keyAt e hoc
            hkl htyg hw0 hst he hg (by rw [hw0] at hlo; exact hlo)
            (by rw [hw0] at hhi; exact hhi)]
          rw [some_decide_eq_some_true]
          exact ⟨fun hP => hsent (by rw [hw0, empty_key_w8]; exact hP),
            fun hQ => by rw [hQ 0 hg, hkcw, hw0, empty_key_w8]⟩
        · rw [isEmptyEntryColumnar_groupby4 ⟨q, targets, inits, buff⟩ buff keyAt e hoc
            hkl htyg hw0 hst he hg (by rw [hw0] at hlo; exact hlo)
            (by rw [hw0] at hhi; exact hhi)]
          rw [some_decide_eq_some_true]
          exact ⟨fun hP => hsent (by rw [hw0, empty_key_w4]; exact hP),
            fun hQ => by rw [hQ 0 hg, hkcw, hw0, empty_key_w4]⟩
        · rw [isEmptyEntryColumnar_groupby2 ⟨q, targets, inits, buff⟩ buff keyAt e hoc
            hkl htyg hw0 hst he hg (by rw [hw0] at hlo; exact hlo)
            (by rw [hw0] at hhi; exact hhi)]
          rw [some_decide_eq_some_true]
          exact ⟨fun hP => hsent (by rw [hw0, empty_key_w2]; exact hP),
            fun hQ => by rw [hQ 0 hg, hkcw, hw0, empty_key_w2]⟩
        · rw [isEmptyEntryColumnar_groupby1 ⟨q, targets, inits, buff⟩ buff keyAt e hoc
            hkl htyg hw0 hst he hg (by rw [hw0] at hlo; exact hlo)
            (by rw [hw0] at hhi; exact hhi)]
          rw [some_decide_eq_some_true]
          exact ⟨fun hP => hsent (by rw [hw0, empty_key_w1]; exact hP),
            fun hQ => by rw [hQ 0 hg, hkcw, hw0, empty_key_w1]⟩
  · intro hkl
    obtain ⟨htyP, hkt0, hktl, hkts, hwpos, hrow, hcolh, hlo, hhi⟩ := hkeyless hkl
    show isEmptyEntry ⟨q, targets, inits, buff⟩ e buff = some true ↔ _
    cases hoc : q.output_columnar with
    | false =>
      rw [isEmptyEntry_rowwise_keyless ⟨q, targets, inits, buff⟩ buff slotAt e hoc hkl
        htyP hkt0 hktl (hrow hoc) he hkts hwpos hlo hhi]
      exact some_decide_eq_some_true _
    | true =>
      obtain ⟨⟨off, hadv⟩, hst⟩ := hcolh hoc
      rw [isEmptyEntry_dispatch_columnar ⟨q, targets, inits, buff⟩ buff e
        (by rw [htyP]; intro hc; exact QueryDescriptionType.noConfusion hc) hoc]
      rw [isEmptyEntryColumnar_keyless ⟨q, targets, inits, buff⟩ buff slotAt e off hoc
        hkl htyP hkt0 hktl hadv hst he hwpos hlo hhi]
      exact some_decide_eq_some_true _

/-- Concrete layout witnessing the sentinel characterization: row-wise keyed
perfect hash, one 8-byte key, one 8-byte slot, two entries (entry 0 holds
key 5, entry 1 is empty). -/
def c2q : QueryMemoryDescriptor :=
  ⟨QueryDescriptionType.GroupByPerfectHash, false, -1, [8], 8, 2, false, [8]⟩

def c2targets : List TargetInfo :=
  [⟨false, AggKind.kOtherAgg, AggArgType.otherTy, false⟩]

def c2keyAt : Nat → Nat → Int := fun e _ => if e = 0 then 5 else EMPTY_KEY_64

def c2slotAt : Nat → Nat → Int := fun _ _ => 0

def c2buff : Nat → Nat := fun a =>
  if a % 16 < 8 then byteAt (c2keyAt (a / 16) 0) 64 (a % 16)
  else byteAt (c2slotAt (a / 16) 0) 64 (a % 16 - 8)

theorem c2_isEmptyEntry_sentinel_iff_witness :
    (c2q.keyless_hash = false →
      (ResultSetStorage.isEmptyEntryAt ⟨c2q, c2targets, [0], c2buff⟩ 1 = some true
        ↔ KeyTupleIsEmpty c2q c2keyAt 1))
    ∧ (c2q.keyless_hash = true →
      (ResultSetStorage.isEmptyEntryAt ⟨c2q, c2targets, [0], c2buff⟩ 1 = some true
        ↔ c2slotAt 1 c2q.idx_target_as_key.toNat
            = List.getD [0] c2q.idx_target_as_key.toNat 0)) :=
  c2_isEmptyEntry_sentinel_iff c2q c2targets [0] c2buff c2keyAt c2slotAt 1
    (by decide) ⟨by decide, by decide, by decide⟩
    (fun _ => ⟨by decide,
      fun _ => ⟨Or.inl (by decide), by unfold StoresRowwiseKeys; decide⟩,
      fun h => absurd h (by decide),
      by decide, by decide,
      by unfold KeyTupleIsEmpty; decide⟩)
    (fun h => absurd h (by decide))

/-! ## Sequential iteration and random access (ResultSet, src). The storage
lookup composed with ResultSetStorage::isEmptyEntry, and the per-entry target
materialization that getRowAt and getNextRow share, are abstracted into two
fields: both access paths consult exactly the same functions, so the claims
about ordering and selection are independent of their definitions. -/

/-- The members of ResultSet (ResultSet.h, src) that drive iteration:
query_mem_desc_.getEntryCount(), permutation_, drop_first_, keep_first_,
and the shared emptiness test / row materialization over global entry
indices. -/
structure ResultSetIter where
  entry_count_qmd : Nat
  permutation : List Nat
  drop_first : Nat
  keep_first : Nat
  isEmptyAt : Nat → Bool
  rowAt : Nat → List Int

/-- ResultSet::entryCount (ResultSetIteration.cpp lines 751-753, src). -/
def entryCountM (rs : ResultSetIter) : Nat :=
  if rs.permutation.isEmpty then rs.entry_count_qmd else rs.permutation.length

/-- Resolution of a cursor position through the permutation, as performed by
getRowAt / isRowAtEmpty / advanceCursorToNextEntry (src):
permutation_.empty() ? i : permutation_[i]. -/
def resolveIdx (rs : ResultSetIter) (i : Nat) : Nat :=
  if rs.permutation.isEmpty then i else rs.permutation.getD i 0

/-- The no-fixup path of ResultSet::getRowAt(global_entry_idx, ...)
(ResultSetIteration.cpp lines 121-219, src): an empty entry yields an empty
row vector, a valid entry yields its materialized row. -/
def getRowAtGlobal (rs : ResultSetIter) (global_entry_idx : Nat) : List Int :=
  if rs.isEmptyAt global_entry_idx then [] else rs.rowAt global_entry_idx

/-- ResultSet::getRowAt(logical_index) (ResultSetIteration.cpp lines 266-273,
src). -/
def getRowAtLogical (rs : ResultSetIter) (logical_index : Nat) : List Int :=
  if logical_index ≥ entryCountM rs then []
  else getRowAtGlobal rs (resolveIdx rs logical_index)

/-- ResultSet::getRowAtNoTranslations (ResultSetIteration.cpp lines 275-284,
src); same control flow as getRowAt(logical_index), the translation flags being
absorbed by the abstract row materialization. -/
def getRowAtNoTranslations (rs : ResultSetIter) (logical_index : Nat) : List Int :=
  if logical_index ≥ entryCountM rs then []
  else getRowAtGlobal rs (resolveIdx rs logical_index)

/-- ResultSet::isRowAtEmpty (ResultSetIteration.cpp lines 286-296, src). -/
def isRowAtEmpty (rs : ResultSetIter) (logical_index : Nat) : Bool :=
  if logical_index ≥ entryCountM rs then true
  else rs.isEmptyAt (resolveIdx rs logical_index)

/-- Cursor state of sequential iteration: crt_row_buff_idx_ and
fetched_so_far_ (ResultSet.h, src). -/
structure CursorState where
  crt_row_buff_idx : Nat
  fetched_so_far : Nat
deriving DecidableEq

/-- The while loop of ResultSet::advanceCursorToNextEntry (ResultSetIteration.cpp
lines 732-742, src): advances crt_row_buff_idx_ past empty entries. -/
def advanceLoop (rs : ResultSetIter) (crt : Nat) : Nat :=
  if crt < entryCountM rs then
    if rs.isEmptyAt (resolveIdx rs crt) then advanceLoop rs (crt + 1) else crt
  else crt
termination_by entryCountM rs - crt

/-- ResultSet::advanceCursorToNextEntry() (ResultSetIteration.cpp lines
731-749, src): first component is the updated crt_row_buff_idx_, second the
returned global entry index. -/
def advanceCursorToNextEntry (rs : ResultSetIter) (crt : Nat) : Nat × Nat :=
  (advanceLoop rs crt,
   if rs.permutation.isEmpty then advanceLoop rs crt
   else if advanceLoop rs crt = rs.permutation.length then advanceLoop rs crt
   else rs.permutation.getD (advanceLoop rs crt) 0)

/-- ResultSet::getNextRowImpl (ResultSetIteration.cpp lines 320-343, src): the
do-while loop enforcing keep_first_/drop_first_, then the materialization of
the entry found by the cursor. Returns the row with the updated cursor. -/
def getNextRowImpl (rs : ResultSetIter) (st : CursorState) : List Int × CursorState :=
  if rs.keep_first ≠ 0 ∧ rs.drop_first + rs.keep_first ≤ st.fetched_so_far then
    ([], st)
  else
    let a := advanceCursorToNextEntry rs st.crt_row_buff_idx
    if entryCountM rs ≤ a.1 then ([], ⟨a.1, st.fetched_so_far⟩)
    else
      if hrec : rs.drop_first ≠ 0 ∧ st.fetched_so_far + 1 ≤ rs.drop_first then
        getNextRowImpl rs ⟨a.1 + 1, st.fetched_so_far + 1⟩
      else (getRowAtGlobal rs a.2, ⟨a.1 + 1, st.fetched_so_far + 1⟩)
termination_by rs.drop_first + 1 - st.fetched_so_far
decreasing_by omega

/-- n successive getNextRow calls from a cursor state: the rows in order and
the final state. -/
def runNextRows (rs : ResultSetIter) : Nat → CursorState → List (List Int) × CursorState
  | 0, st => ([], st)
  | n + 1, st =>
    let r := getNextRowImpl rs st
    let rest := runNextRows rs n r.2
    (r.1 :: rest.1, rest.2)

def isValidAt (rs : ResultSetIter) (i : Nat) : Bool := !rs.isEmptyAt (resolveIdx rs i)

/-- Cursor positions in [0, entryCount()) holding valid rows, in order. -/
def validPositions (rs : ResultSetIter) : List Nat :=
  (List.range (entryCountM rs)).filter (fun i => isValidAt rs i)

/-- Number of valid cursor positions before position c. -/
def countValidBelow (rs : ResultSetIter) (c : Nat) : Nat :=
  ((List.range c).filter (fun i => isValidAt rs i)).length

/-- Modelled from the spec: ResultSet::rowCount (ResultSet.cpp, not under
src/) - the number of valid entries, trimmed by the OFFSET/LIMIT counters
(spec section 4.4: closed-form from counters / binary search / scan). -/
def rowCountM (rs : ResultSetIter) : Nat :=
  let n := (validPositions rs).length
  if rs.keep_first ≠ 0 then min rs.keep_first (n - rs.drop_first)
  else n - rs.drop_first

theorem countValidBelow_succ (rs : ResultSetIter) (c : Nat) :
    countValidBelow rs (c + 1)
      = countValidBelow rs c + if isValidAt rs c then 1 else 0 := by
  cases hv : isValidAt rs c <;>
    simp [countValidBelow, List.range_succ, List.filter_append, hv]

theorem countValidBelow_le_total (rs : ResultSetIter) (c : Nat)
    (h : c ≤ entryCountM rs) :
    countValidBelow rs c ≤ (validPositions rs).length :=
  List.Sublist.length_le
    (List.Sublist.filter _ (List.range_sublist.mpr h))

theorem countValidBelow_total (rs : ResultSetIter) :
    countValidBelow rs (entryCountM rs) = (validPositions rs).length := rfl

theorem validPositions_getD (rs : ResultSetIter) (c : Nat)
    (hc : c < entryCountM rs) (hv : isValidAt rs c = true) :
    (validPositions rs).getD (countValidBelow rs c) 0 = c := by
  have hcvb : countValidBelow rs c
      = (List.filter (fun i => isValidAt rs i) (List.range c)).length := rfl
  have hsplit1 : List.filter (fun i => isValidAt rs i) (List.range (c + 1))
      = List.filter (fun i => isValidAt rs i) (List.range c) ++ [c] := by
    rw [List.range_succ, List.filter_append]
    simp [hv]
  have hsplit : validPositions rs
      = (List.filter (fun i => isValidAt rs i) (List.range c) ++ [c])
        ++ List.filter (fun i => isValidAt rs i)
            ((List.range (entryCountM rs - (c + 1))).map ((c + 1) + ·)) := by
    unfold validPositions
    nth_rewrite 1 [show entryCountM rs = (c + 1) + (entryCountM rs - (c + 1)) from by
      omega]
    rw [List.range_add, List.filter_append, hsplit1]
  rw [hsplit, List.getD_eq_getElem?_getD,
    List.getElem?_append_left (by simp [hcvb]),
    List.getElem?_append_right (by rw [hcvb]),
    hcvb, Nat.sub_self]
  simp

theorem countValidBelow_congr (rs : ResultSetIter) (a : Nat) :
    ∀ b, a ≤ b → (∀ j, a ≤ j → j < b → isValidAt rs j = false) →
      countValidBelow rs b = countValidBelow rs a := by
  intro b
  induction b with
  | zero =>
    intro hab _
    have : a = 0 := by omega
    rw [this]
  | succ k ih =>
    intro hab hinv
    rcases Nat.lt_or_ge a (k + 1) with hlt | hge
    · rw [countValidBelow_succ, hinv k (by omega) (by omega)]
      simp only [Bool.false_eq_true, if_false, Nat.add_zero]
      exact ih (by omega) (fun j hj1 hj2 => hinv j hj1 (by omega))
    · have : a = k + 1 := by omega
      rw [this]

theorem advanceLoop_spec (rs : ResultSetIter) :
    ∀ m c, entryCountM rs - c ≤ m → c ≤ entryCountM rs →
      c ≤ advanceLoop rs c ∧ advanceLoop rs c ≤ entryCountM rs
      ∧ (∀ j, c ≤ j → j < advanceLoop rs c → isValidAt rs j = false)
      ∧ (advanceLoop rs c = entryCountM rs
          ∨ (advanceLoop rs c < entryCountM rs
             ∧ isValidAt rs (advanceLoop rs c) = true)) := by
  intro m
  induction m with
  | zero =>
    intro c hm hc
    have hce : c = entryCountM rs := by omega
    rw [advanceLoop, if_neg (by omega)]
    exact ⟨le_refl c, by omega, fun j h1 h2 => by omega, Or.inl hce⟩
  | succ k ih =>
    intro c hm hc
    rw [advanceLoop]
    by_cases hlt : c < entryCountM rs
    · rw [if_pos hlt]
      cases he : rs.isEmptyAt (resolveIdx rs c) with
      | true =>
        rw [if_pos rfl]
        obtain ⟨h1, h2, h3, h4⟩ := ih (c + 1) (by omega) (by omega)
        refine ⟨by omega, h2, ?_, h4⟩
        intro j hj1 hj2
        rcases Nat.lt_or_ge j (c + 1) with hj | hj
        · have : j = c := by omega
          rw [this]
          simp [isValidAt, he]
        · exact h3 j hj hj2
      | false =>
        rw [if_neg (by simp)]
        exact ⟨le_refl c, by omega, fun j h1 h2 => by omega,
          Or.inr ⟨hlt, by simp [isValidAt, he]⟩⟩
    · rw [if_neg hlt]
      exact ⟨le_refl c, hc, fun j h1 h2 => by omega, Or.inl (by omega)⟩

theorem advanceCursor_snd (rs : ResultSetIter) (c : Nat)
    (h : advanceLoop rs c < entryCountM rs) :
    (advanceCursorToNextEntry rs c).2 = resolveIdx rs (advanceLoop rs c) := by
  unfold advanceCursorToNextEntry resolveIdx
  cases hp : rs.permutation.isEmpty with
  | true => simp
  | false =>
    have hlen : entryCountM rs = rs.permutation.length := by
      unfold entryCountM
      rw [hp]
      simp
    simp only [Bool.false_eq_true, if_false]
    rw [if_neg (by omega)]

theorem advanceCursor_fst (rs : ResultSetIter) (c : Nat) :
    (advanceCursorToNextEntry rs c).1 = advanceLoop rs c := rfl

/-- One getNextRow call from a consistent cursor state (f valid positions lie
before the cursor): either the LIMIT is already reached, or the entries are
exhausted, or the next not-dropped valid entry is materialized; dropped valid
entries are consumed inside the call. -/
theorem getNextRowImpl_spec (rs : ResultSetIter) :
    ∀ m c f, rs.drop_first + 1 - f ≤ m →
      c ≤ entryCountM rs → f = countValidBelow rs c →
      getNextRowImpl rs ⟨c, f⟩ =
        if rs.keep_first ≠ 0 ∧ rs.drop_first + rs.keep_first ≤ f then
          ([], ⟨c, f⟩)
        else if (validPositions rs).length ≤ max f rs.drop_first then
          ([], ⟨entryCountM rs, (validPositions rs).length⟩)
        else
          (rs.rowAt (resolveIdx rs
            ((validPositions rs).getD (max f rs.drop_first) 0)),
           ⟨(validPositions rs).getD (max f rs.drop_first) 0 + 1,
            max f rs.drop_first + 1⟩) := by
  intro m
  induction m using Nat.strong_induction_on with
  | _ m ih =>
    intro c f hm hc hf
    rw [getNextRowImpl]
    by_cases hkeep : rs.keep_first ≠ 0 ∧ rs.drop_first + rs.keep_first ≤ f
    · rw [if_pos hkeep, if_pos hkeep]
    · rw [if_neg hkeep, if_neg hkeep]
      obtain ⟨ha1, ha2, ha3, ha4⟩ :=
        advanceLoop_spec rs (entryCountM rs - c) c (le_refl _) hc
      have hcvbA : countValidBelow rs (advanceLoop rs c) = f := by
        rw [hf]
        exact countValidBelow_congr rs c (advanceLoop rs c) ha1 ha3
      simp only [advanceCursor_fst]
      rcases ha4 with hend | ⟨hlt, hvalid⟩
      · have htot : (validPositions rs).length = f := by
          rw [← countValidBelow_total, ← hend, hcvbA]
        rw [if_pos (show entryCountM rs ≤ advanceLoop rs c by omega),
          if_pos (show (validPositions rs).length ≤ max f rs.drop_first by omega),
          hend, htot]
      · have hj : (validPositions rs).getD f 0 = advanceLoop rs c := by
          rw [← hcvbA]
          exact validPositions_getD rs _ hlt hvalid
        have hsucc : countValidBelow rs (advanceLoop rs c + 1) = f + 1 := by
          rw [countValidBelow_succ, hcvbA, hvalid]
          simp
        have hflt : f < (validPositions rs).length := by
          have h1 := countValidBelow_le_total rs (advanceLoop rs c + 1) (by omega)
          omega
        rw [if_neg (show ¬ entryCountM rs ≤ advanceLoop rs c by omega)]
        by_cases hrec : rs.drop_first ≠ 0 ∧ f + 1 ≤ rs.drop_first
        · rw [dif_pos hrec]
          have hm2 : 2 ≤ m := by omega
          rw [ih (m - 1) (by omega) (advanceLoop rs c + 1) (f + 1) (by omega)
            (by omega) hsucc.symm]
          have hmax : max (f + 1) rs.drop_first = max f rs.drop_first := by omega
          rw [if_neg (show ¬ (rs.keep_first ≠ 0
              ∧ rs.drop_first + rs.keep_first ≤ f + 1) by omega), hmax]
        · rw [dif_neg hrec]
          have hmax : max f rs.drop_first = f := by omega
          rw [if_neg (show ¬ (validPositions rs).length ≤ max f rs.drop_first by
              omega),
            hmax, hj, advanceCursor_snd rs c hlt]
          have hemp : rs.isEmptyAt (resolveIdx rs (advanceLoop rs c)) = false := by
            have := hvalid
            unfold isValidAt at this
            simpa using this
          rw [getRowAtGlobal, hemp]
          simp

theorem nextValid_props (rs : ResultSetIter) (c f : Nat)
    (hc : c ≤ entryCountM rs) (hf : f = countValidBelow rs c)
    (hflt : f < (validPositions rs).length) :
    (validPositions rs).getD f 0 < entryCountM rs
    ∧ isValidAt rs ((validPositions rs).getD f 0) = true
    ∧ countValidBelow rs ((validPositions rs).getD f 0 + 1) = f + 1 := by
  obtain ⟨ha1, ha2, ha3, ha4⟩ :=
    advanceLoop_spec rs (entryCountM rs - c) c (le_refl _) hc
  have hcvbA : countValidBelow rs (advanceLoop rs c) = f := by
    rw [hf]
    exact countValidBelow_congr rs c (advanceLoop rs c) ha1 ha3
  rcases ha4 with hend | ⟨hlt, hvalid⟩
  · exfalso
    have : (validPositions rs).length = f := by
      rw [← countValidBelow_total, ← hend, hcvbA]
    omega
  · have hj : (validPositions rs).getD f 0 = advanceLoop rs c := by
      rw [← hcvbA]
      exact validPositions_getD rs _ hlt hvalid
    rw [hj]
    refine ⟨hlt, hvalid, ?_⟩
    rw [countValidBelow_succ, hcvbA, hvalid]
    simp

/-- Rows still due from a cursor that has consumed the first f valid entries:
all remaining valid positions, cut to the LIMIT when keep_first is set. -/
def remainingValid (rs : ResultSetIter) (f : Nat) : List Nat :=
  if rs.keep_first = 0 then (validPositions rs).drop f
  else ((validPositions rs).drop f).take (rs.drop_first + rs.keep_first - f)

theorem remainingValid_length (rs : ResultSetIter) (f : Nat) :
    (remainingValid rs f).length
      = if rs.keep_first = 0 then (validPositions rs).length - f
        else min (rs.drop_first + rs.keep_first - f) ((validPositions rs).length - f) := by
  unfold remainingValid
  split_ifs <;> simp

/-- Draining the cursor: from a consistent state past the OFFSET, the next
calls yield exactly the remaining valid rows in order, then an empty row. -/
theorem runNextRows_drain (rs : ResultSetIter) :
    ∀ n c f, c ≤ entryCountM rs → f = countValidBelow rs c → rs.drop_first ≤ f →
      n = (remainingValid rs f).length →
      (runNextRows rs (n + 1) ⟨c, f⟩).1
        = (remainingValid rs f).map (fun v => rs.rowAt (resolveIdx rs v)) ++ [[]] := by
  intro n
  induction n with
  | zero =>
    intro c f hc hf hdrop hrem
    have hlen := remainingValid_length rs f
    have hempty : remainingValid rs f = [] :=
      List.eq_nil_of_length_eq_zero hrem.symm
    rw [hempty]
    show (getNextRowImpl rs ⟨c, f⟩).1 :: (runNextRows rs 0 _).1 = [[]]
    rw [getNextRowImpl_spec rs (rs.drop_first + 1) c f (by omega) hc hf]
    rw [hempty] at hlen
    simp only [List.length_nil] at hlen
    by_cases hkeep : rs.keep_first ≠ 0 ∧ rs.drop_first + rs.keep_first ≤ f
    · rw [if_pos hkeep]
      rfl
    · rw [if_neg hkeep]
      have htot : (validPositions rs).length ≤ f := by
        by_cases hk : rs.keep_first = 0
        · rw [if_pos hk] at hlen
          omega
        · rw [if_neg hk] at hlen
          omega
      rw [if_pos (show (validPositions rs).length ≤ max f rs.drop_first by omega)]
      rfl
  | succ k ih =>
    intro c f hc hf hdrop hrem
    have hlen := remainingValid_length rs f
    have hkeep : ¬ (rs.keep_first ≠ 0 ∧ rs.drop_first + rs.keep_first ≤ f) := by
      intro ⟨hk, hge⟩
      rw [if_neg hk] at hlen
      omega
    have hflt : f < (validPositions rs).length := by
      by_cases hk : rs.keep_first = 0
      · rw [if_pos hk] at hlen
        omega
      · rw [if_neg hk] at hlen
        omega
    obtain ⟨hjlt, hjvalid, hjsucc⟩ := nextValid_props rs c f hc hf hflt
    have hdecomp : remainingValid rs f
        = (validPositions rs).getD f 0 :: remainingValid rs (f + 1) := by
      have hdropcons : (validPositions rs).drop f
          = (validPositions rs).getD f 0 :: (validPositions rs).drop (f + 1) := by
        rw [List.drop_eq_getElem_cons hflt]
        congr 1
        rw [List.getD_eq_getElem?_getD, List.getElem?_eq_getElem hflt]
        rfl
      unfold remainingValid
      by_cases hk : rs.keep_first = 0
      · rw [if_pos hk, if_pos hk, hdropcons]
      · rw [if_neg hk, if_neg hk, hdropcons]
        have hfk : f < rs.drop_first + rs.keep_first := by omega
        rw [show rs.drop_first + rs.keep_first - f
            = (rs.drop_first + rs.keep_first - (f + 1)) + 1 by omega]
        rfl
    show (getNextRowImpl rs ⟨c, f⟩).1
        :: (runNextRows rs (k + 1) (getNextRowImpl rs ⟨c, f⟩).2).1 = _
    rw [getNextRowImpl_spec rs (rs.drop_first + 1) c f (by omega) hc hf,
      if_neg hkeep,
      if_neg (show ¬ (validPositions rs).length ≤ max f rs.drop_first by omega)]
    have hmax : max f rs.drop_first = f := by omega
    rw [hmax, hdecomp]
    simp only [List.map_cons, List.cons_append]
    congr 1
    exact ih ((validPositions rs).getD f 0 + 1) (f + 1) (by omega) hjsucc.symm
      (by omega) (by rw [hdecomp] at hrem; simpa using hrem)

/-- C10: For every logical index at or beyond entryCount(), getRowAt and
getRowAtNoTranslations return an empty row vector and isRowAtEmpty returns
true; the results do not depend on the storage contents (the emptiness test
and row materialization are universally quantified) and the functions are
observably state-free. -/
theorem c10_out_of_range_guards (ecq : Nat) (perm : List Nat) (d k : Nat)
    (em : Nat → Bool) (ro : Nat → List Int) (idx : Nat)
    (h : entryCountM ⟨ecq, perm, d, k, em, ro⟩ ≤ idx) :
    getRowAtLogical ⟨ecq, perm, d, k, em, ro⟩ idx = []
    ∧ getRowAtNoTranslations ⟨ecq, perm, d, k, em, ro⟩ idx = []
    ∧ isRowAtEmpty ⟨ecq, perm, d, k, em, ro⟩ idx = true := by
  unfold getRowAtLogical getRowAtNoTranslations isRowAtEmpty
  simp [h]

theorem c10_out_of_range_guards_witness :
    getRowAtLogical ⟨3, [], 0, 0, fun _ => false, fun i => [Int.ofNat i]⟩ 5 = []
    ∧ getRowAtNoTranslations ⟨3, [], 0, 0, fun _ => false, fun i => [Int.ofNat i]⟩ 5 = []
    ∧ isRowAtEmpty ⟨3, [], 0, 0, fun _ => false, fun i => [Int.ofNat i]⟩ 5 = true :=
  c10_out_of_range_guards 3 [] 0 0 (fun _ => false) (fun i => [Int.ofNat i]) 5
    (by decide)

theorem resolveIdx_nil (rs : ResultSetIter) (h : rs.permutation = []) (i : Nat) :
    resolveIdx rs i = i := by
  unfold resolveIdx
  rw [h]
  simp

/-- A filter by a downward-closed predicate keeps a prefix of the range. -/
theorem filter_range_packed : ∀ (m : Nat) (p : Nat → Bool),
    (∀ i j, i ≤ j → j < m → p j = true → p i = true) →
    List.filter p (List.range m)
      = List.range ((List.filter p (List.range m)).length) := by
  intro m
  induction m with
  | zero => intro p _; rfl
  | succ k ih =>
    intro p hp
    rw [List.range_succ, List.filter_append]
    cases hm : p k with
    | true =>
      have hall : List.filter p (List.range k) = List.range k := by
        rw [List.filter_eq_self]
        intro a ha
        exact hp a k (by have := List.mem_range.mp ha; omega) (by omega) hm
      rw [hall]
      simp [hm, List.range_succ]
    | false =>
      have : List.filter p [k] = [] := by simp [hm]
      rw [this, List.append_nil]
      exact ih p (fun i j h1 h2 h3 => hp i j h1 (by omega) h3)

/-- With no permutation and packed valid entries, the valid cursor positions
are exactly 0 .. rowCount-1. -/
theorem validPositions_packed (rs : ResultSetIter)
    (hperm : rs.permutation = [])
    (hpacked : ∀ i j, i ≤ j → j < entryCountM rs → rs.isEmptyAt i = true →
      rs.isEmptyAt j = true) :
    validPositions rs = List.range ((validPositions rs).length) := by
  unfold validPositions
  apply filter_range_packed
  intro i j hij hj hpj
  unfold isValidAt at hpj ⊢
  rw [resolveIdx_nil rs hperm] at hpj ⊢
  cases hei : rs.isEmptyAt i with
  | false => simp
  | true =>
    rw [hpacked i j hij hj hei] at hpj
    simp at hpj

theorem remainingValid_cons (rs : ResultSetIter) (f : Nat)
    (hflt : f < (validPositions rs).length)
    (hfk : rs.keep_first ≠ 0 → f < rs.drop_first + rs.keep_first) :
    remainingValid rs f = (validPositions rs).getD f 0 :: remainingValid rs (f + 1) := by
  have hdropcons : (validPositions rs).drop f
      = (validPositions rs).getD f 0 :: (validPositions rs).drop (f + 1) := by
    rw [List.drop_eq_getElem_cons hflt]
    congr 1
    rw [List.getD_eq_getElem?_getD, List.getElem?_eq_getElem hflt]
    rfl
  unfold remainingValid
  by_cases hk : rs.keep_first = 0
  · rw [if_pos hk, if_pos hk, hdropcons]
  · rw [if_neg hk, if_neg hk, hdropcons]
    rw [show rs.drop_first + rs.keep_first - f
        = (rs.drop_first + rs.keep_first - (f + 1)) + 1 by have := hfk hk; omega]
    rfl

theorem validPositions_props (rs : ResultSetIter) :
    ∀ f, f < (validPositions rs).length →
      (validPositions rs).getD f 0 < entryCountM rs
      ∧ isValidAt rs ((validPositions rs).getD f 0) = true
      ∧ countValidBelow rs ((validPositions rs).getD f 0 + 1) = f + 1 := by
  intro f
  induction f with
  | zero =>
    intro hf
    exact nextValid_props rs 0 0 (Nat.zero_le _) rfl hf
  | succ k ih =>
    intro hf
    obtain ⟨h1, h2, h3⟩ := ih (by omega)
    exact nextValid_props rs ((validPositions rs).getD k 0 + 1) (k + 1) (by omega)
      h3.symm hf

/-- C4 (general part): valid entries before dropFirst are consumed but not
yielded, and iteration stops once keepFirst valid rows have been yielded
(keep_first = 0 meaning no limit) or the entries are exhausted: from a fresh
cursor, the calls yield exactly the valid rows with ranks
[dropFirst, dropFirst+keepFirst) in order, then an empty result. -/
theorem c4_drop_keep_semantics (rs : ResultSetIter) (n : Nat)
    (hn : n = (if rs.keep_first = 0 then (validPositions rs).drop rs.drop_first
      else ((validPositions rs).drop rs.drop_first).take rs.keep_first).length) :
    (runNextRows rs (n + 1) ⟨0, 0⟩).1
      = (if rs.keep_first = 0 then (validPositions rs).drop rs.drop_first
          else ((validPositions rs).drop rs.drop_first).take rs.keep_first).map
          (fun v => rs.rowAt (resolveIdx rs v)) ++ [[]] := by
  have hform : (if rs.keep_first = 0 then (validPositions rs).drop rs.drop_first
      else ((validPositions rs).drop rs.drop_first).take rs.keep_first)
      = remainingValid rs rs.drop_first := by
    unfold remainingValid
    rw [show rs.drop_first + rs.keep_first - rs.drop_first = rs.keep_first by omega]
  rw [hform] at hn ⊢
  by_cases hd : rs.drop_first = 0
  · rw [hd] at hn ⊢
    exact runNextRows_drain rs n 0 0 (Nat.zero_le _) rfl (by omega) hn
  · have hkeep0 : ¬ (rs.keep_first ≠ 0 ∧ rs.drop_first + rs.keep_first ≤ 0) := by
      omega
    by_cases htd : (validPositions rs).length ≤ rs.drop_first
    · have hn0 : n = 0 := by
        rw [remainingValid_length] at hn
        by_cases hk : rs.keep_first = 0
        · rw [if_pos hk] at hn; omega
        · rw [if_neg hk] at hn; omega
      have hremnil : remainingValid rs rs.drop_first = [] :=
        List.eq_nil_of_length_eq_zero (by omega)
      rw [hn0, hremnil]
      show (getNextRowImpl rs ⟨0, 0⟩).1 :: (runNextRows rs 0 _).1 = [[]]
      rw [getNextRowImpl_spec rs (rs.drop_first + 1) 0 0 (by omega) (Nat.zero_le _)
        rfl, if_neg hkeep0,
        if_pos (show (validPositions rs).length ≤ max 0 rs.drop_first by omega)]
      rfl
    · obtain ⟨hjlt, hjvalid, hjsucc⟩ :=
        validPositions_props rs rs.drop_first (by omega)
      have hcons := remainingValid_cons rs rs.drop_first (by omega) (by omega)
      have hn1 : n = (remainingValid rs (rs.drop_first + 1)).length + 1 := by
        rw [hn, hcons]
        simp
      rw [hn1]
      show (getNextRowImpl rs ⟨0, 0⟩).1
          :: (runNextRows rs ((remainingValid rs (rs.drop_first + 1)).length + 1)
            (getNextRowImpl rs ⟨0, 0⟩).2).1 = _
      rw [getNextRowImpl_spec rs (rs.drop_first + 1) 0 0 (by omega) (Nat.zero_le _)
        rfl, if_neg hkeep0,
        if_neg (show ¬ (validPositions rs).length ≤ max 0 rs.drop_first by omega),
        show max 0 rs.drop_first = rs.drop_first by omega]
      rw [runNextRows_drain rs ((remainingValid rs (rs.drop_first + 1)).length)
        ((validPositions rs).getD rs.drop_first 0 + 1) (rs.drop_first + 1)
        (by omega) hjsucc.symm (by omega) rfl]
      rw [hcons]
      simp

/-- The claim's scenario: 8 valid rows numbered 0..7, dropFirst=2, keepFirst=3. -/
def c4rs : ResultSetIter :=
  ⟨8, [], 2, 3, fun _ => false, fun i => [Int.ofNat i]⟩

theorem c4_drop_keep_semantics_witness :
    (runNextRows c4rs (3 + 1) ⟨0, 0⟩).1 = [[2], [3], [4], []] := by
  have h := c4_drop_keep_semantics c4rs 3 (by decide)
  rw [h]
  decide

/-- C3 (amended): with no permutation, no OFFSET/LIMIT (drop_first = 0,
keep_first = 0) and no empty entry preceding a valid one, the sequence
getRowAt(0), ..., getRowAt(rowCount()-1) equals, element by element and in
order, the rows of repeated getNextRow() calls from a fresh cursor, and the
next call after them returns an empty row. The claim as frozen fails without
the packedness hypothesis (see the counterexample): getRowAt indexes entries,
while getNextRow skips empty ones. -/
theorem c3_getRowAt_matches_getNextRow (rs : ResultSetIter) (n : Nat)
    (hperm : rs.permutation = [])
    (hdrop : rs.drop_first = 0) (hkeep : rs.keep_first = 0)
    (hpacked : ∀ j, j < entryCountM rs → ∀ i, i ≤ j → rs.isEmptyAt i = true →
      rs.isEmptyAt j = true)
    (hn : n = rowCountM rs) :
    (runNextRows rs (n + 1) ⟨0, 0⟩).1
      = (List.range n).map (getRowAtLogical rs) ++ [[]] := by
  have htot : rowCountM rs = (validPositions rs).length := by
    unfold rowCountM
    rw [if_neg (by omega), hdrop]
    omega
  have hVP := validPositions_packed rs hperm
    (fun i j hij hj hei => hpacked j hj i hij hei)
  have hlen_le : (validPositions rs).length ≤ entryCountM rs := by
    unfold validPositions
    calc (List.filter (fun i => isValidAt rs i) (List.range (entryCountM rs))).length
        ≤ (List.range (entryCountM rs)).length := List.length_filter_le _ _
      _ = entryCountM rs := List.length_range _
  have hrem : remainingValid rs 0 = validPositions rs := by
    unfold remainingValid
    rw [if_pos hkeep]
    rfl
  have hdrain := runNextRows_drain rs n 0 0 (Nat.zero_le _) rfl (by omega)
    (by rw [hrem]; omega)
  rw [hdrain, hrem]
  congr 1
  rw [hVP, show n = (validPositions rs).length from by omega]
  apply List.map_congr_left
  intro a ha
  have halt : a < (validPositions rs).length := List.mem_range.mp ha
  have hmem : a ∈ validPositions rs := by
    rw [hVP]
    exact ha
  have hvalid : isValidAt rs a = true := (List.mem_filter.mp hmem).2
  unfold isValidAt at hvalid
  rw [resolveIdx_nil rs hperm] at hvalid
  have hemp : rs.isEmptyAt a = false := by
    cases h : rs.isEmptyAt a
    · rfl
    · rw [h] at hvalid
      simp at hvalid
  rw [resolveIdx_nil rs hperm]
  unfold getRowAtLogical getRowAtGlobal
  rw [if_neg (by omega), resolveIdx_nil rs hperm, hemp]
  simp

/-- A packed instance for the amended claim: 4 entries, the first 2 valid. -/
def c3rs : ResultSetIter :=
  ⟨4, [], 0, 0, fun i => decide (2 ≤ i), fun i => [Int.ofNat i]⟩

theorem c3_getRowAt_matches_getNextRow_witness :
    (runNextRows c3rs (2 + 1) ⟨0, 0⟩).1
      = (List.range 2).map (getRowAtLogical c3rs) ++ [[]] :=
  c3_getRowAt_matches_getNextRow c3rs 2 rfl rfl rfl (by decide) (by decide)

/-- A sparse (hashed group-by style) instance on which the claim as frozen
fails: 2 entries, entry 0 empty and entry 1 valid. -/
def c3ce : ResultSetIter :=
  ⟨2, [], 0, 0, fun i => decide (i = 0), fun i => [Int.ofNat i]⟩

/-- C3 counterexample: with no permutation but an empty entry before a valid
one, rowCount() is 1, the getRowAt sequence over [0, rowCount()) is [[]] (the
empty row vector of the empty entry 0), while the first getNextRow() call
yields the row of entry 1 - the two sequences differ at index 0. -/
theorem c3_counterexample_sparse :
    c3ce.permutation = [] ∧ c3ce.drop_first = 0 ∧ c3ce.keep_first = 0
    ∧ rowCountM c3ce = 1
    ∧ (List.range 1).map (getRowAtLogical c3ce) = [[]]
    ∧ (runNextRows c3ce 1 ⟨0, 0⟩).1 = [[1]]
    ∧ (List.range 1).map (getRowAtLogical c3ce) ≠ (runNextRows c3ce 1 ⟨0, 0⟩).1 := by
  have hs : getNextRowImpl c3ce ⟨0, 0⟩ = ([1], ⟨2, 1⟩) := by
    rw [getNextRowImpl_spec c3ce 1 0 0 (by decide) (by decide) (by decide)]
    decide
  have hrun : (runNextRows c3ce 1 ⟨0, 0⟩).1 = [[1]] := by
    show (getNextRowImpl c3ce ⟨0, 0⟩).1 :: (runNextRows c3ce 0 _).1 = [[1]]
    rw [hs]
    rfl
  refine ⟨rfl, rfl, rfl, by decide, by decide, hrun, ?_⟩
  rw [hrun]
  decide

/-! ## Global entry index resolution across appended storages. -/

/-- Modelled from the spec: loop of ResultSet::getStorageIndex (implementation
in ResultSet.cpp, not under src/; declaration and resolution convention in
ResultSet.h lines 805-816, src): walks the appended storages subtracting each
entry count; falling off the end is an UNREACHABLE defect, modelled as none. -/
def getStorageIndexGo : List Nat → Nat → Nat → Option (Nat × Nat)
  | [], _, _ => none
  | n :: rest, i, ord =>
    if i < n then some (ord, i) else getStorageIndexGo rest (i - n) (ord + 1)

/-- Modelled from the spec: ResultSet::getStorageIndex - a global entry index
resolves to the primary storage (ordinal 0) when below its entry count, else
into successive appended storages with the preceding counts subtracted. -/
def getStorageIndex (primary_count : Nat) (appended_counts : List Nat)
    (entry_idx : Nat) : Option (Nat × Nat) :=
  if entry_idx < primary_count then some (0, entry_idx)
  else getStorageIndexGo appended_counts (entry_idx - primary_count) 1

theorem getStorageIndexGo_spec : ∀ (cs : List Nat) (k r ord : Nat),
    k < cs.length → (cs.take k).sum ≤ r → r < (cs.take (k + 1)).sum →
    getStorageIndexGo cs r ord = some (ord + k, r - (cs.take k).sum) := by
  intro cs
  induction cs with
  | nil => intro k r ord hk _ _; simp at hk
  | cons c rest ih =>
    intro k r ord hk hlo hhi
    cases k with
    | zero =>
      simp only [List.take, List.sum_cons, List.sum_nil] at hlo hhi
      unfold getStorageIndexGo
      rw [if_pos (by simp at hhi; omega)]
      simp
    | succ k' =>
      simp only [List.take, List.sum_cons] at hlo hhi
      unfold getStorageIndexGo
      rw [if_neg (by omega)]
      rw [ih k' (r - c) (ord + 1) (by simpa using hk) (by omega) (by omega)]
      congr 1
      refine Prod.ext ?_ ?_
      · simp
        omega
      · simp only [List.take, List.sum_cons]
        omega

theorem getStorageIndexGo_total : ∀ (cs : List Nat) (r ord : Nat),
    r < cs.sum → (getStorageIndexGo cs r ord).isSome := by
  intro cs
  induction cs with
  | nil => intro r ord h; simp at h
  | cons c rest ih =>
    intro r ord h
    unfold getStorageIndexGo
    by_cases hr : r < c
    · rw [if_pos hr]
      rfl
    · rw [if_neg hr]
      exact ih (r - c) (ord + 1) (by simp at h; omega)

/-- The post-append result set of the claim's scenario: primary storage with 5
entries plus an appended storage with 3, all valid; per spec section 4.5 the
combined entry count is the sum, 8. -/
def c5rs : ResultSetIter :=
  ⟨8, [], 0, 0, fun _ => false, fun i => [Int.ofNat i]⟩

/-- C5: resolving a global entry index i yields the primary storage with local
index i when i < N0, and otherwise the k-th appended storage with local index
i minus the sum of the preceding entry counts; in the scenario of a 5-entry
primary and a 3-entry appended storage, all valid, rowCount() is 8 and entry 6
resolves into the second storage at local index 1. -/
theorem c5_storage_resolution :
    (∀ (N0 : Nat) (cs : List Nat) (i : Nat), i < N0 →
      getStorageIndex N0 cs i = some (0, i))
    ∧ (∀ (N0 : Nat) (cs : List Nat) (i k : Nat), k < cs.length →
        N0 + (cs.take k).sum ≤ i → i < N0 + (cs.take (k + 1)).sum →
        getStorageIndex N0 cs i = some (k + 1, i - (N0 + (cs.take k).sum)))
    ∧ rowCountM c5rs = 8
    ∧ getStorageIndex 5 [3] 6 = some (1, 1) := by
  refine ⟨?_, ?_, by decide, by decide⟩
  · intro N0 cs i hi
    unfold getStorageIndex
    rw [if_pos hi]
  · intro N0 cs i k hk hlo hhi
    unfold getStorageIndex
    rw [if_neg (by
      have : (0 : Nat) ≤ (cs.take k).sum := Nat.zero_le _
      omega)]
    rw [getStorageIndexGo_spec cs k (i - N0) 1 hk (by omega) (by omega)]
    congr 2
    · omega
    · omega

theorem c5_storage_resolution_witness :
    getStorageIndex 5 [3] 6 = some (1, 1) :=
  c5_storage_resolution.2.1 5 [3] 6 0 (by decide) (by decide) (by decide)

/-- Instance for the totality witness: appended result set with entry counts
5 + 3, no permutation. -/
def c6rs : ResultSetIter :=
  ⟨8, [], 0, 0, fun _ => false, fun i => [Int.ofNat i]⟩

/-- C6: entryCount() equals the permutation's size when a permutation is
present and the layout descriptor's entry count when it is empty
(ResultSetIteration.cpp lines 751-753, src); and under the append invariant
(the primary descriptor's entry count equals the sum of the storages' entry
counts, spec section 4.5), the storage lookup is total over [0, entryCount()),
both directly and through a permutation whose entries are in range. -/
theorem c6_entry_count_and_lookup_total :
    (∀ rs : ResultSetIter, entryCountM rs
        = if rs.permutation.isEmpty then rs.entry_count_qmd
          else rs.permutation.length)
    ∧ (∀ (N0 : Nat) (cs : List Nat) (rs : ResultSetIter),
        rs.permutation = [] → rs.entry_count_qmd = N0 + cs.sum →
        ∀ i < entryCountM rs, (getStorageIndex N0 cs i).isSome)
    ∧ (∀ (N0 : Nat) (cs : List Nat) (rs : ResultSetIter),
        (∀ p ∈ rs.permutation, p < N0 + cs.sum) →
        rs.entry_count_qmd = N0 + cs.sum →
        ∀ i < entryCountM rs, (getStorageIndex N0 cs (resolveIdx rs i)).isSome) := by
  have htotal : ∀ (N0 : Nat) (cs : List Nat) (j : Nat), j < N0 + cs.sum →
      (getStorageIndex N0 cs j).isSome := by
    intro N0 cs j hj
    unfold getStorageIndex
    by_cases hjn : j < N0
    · rw [if_pos hjn]
      rfl
    · rw [if_neg hjn]
      exact getStorageIndexGo_total cs (j - N0) 1 (by omega)
  refine ⟨fun rs => rfl, ?_, ?_⟩
  · intro N0 cs rs hperm hsum i hi
    apply htotal
    unfold entryCountM at hi
    rw [hperm] at hi
    simp at hi
    omega
  · intro N0 cs rs hperm hsum i hi
    cases hp : rs.permutation.isEmpty with
    | true =>
      rw [resolveIdx_nil rs (List.isEmpty_iff.mp hp) i]
      apply htotal
      unfold entryCountM at hi
      rw [hp] at hi
      simp at hi
      omega
    | false =>
      have hilen : i < rs.permutation.length := by
        unfold entryCountM at hi
        rw [hp] at hi
        simpa using hi
      have hres : resolveIdx rs i = rs.permutation[i] := by
        unfold resolveIdx
        rw [hp]
        simp only [Bool.false_eq_true, if_false]
        rw [List.getD_eq_getElem?_getD, List.getElem?_eq_getElem hilen]
        rfl
      rw [hres]
      exact htotal _ _ _ (hperm _ (List.getElem_mem hilen))

theorem c6_entry_count_and_lookup_total_witness :
    (getStorageIndex 5 [3] 7).isSome = true :=
  c6_entry_count_and_lookup_total.2.1 5 [3] c6rs rfl (by decide) 7 (by decide)

/-! ## AVG materialization. -/

/-- Modelled from the spec: pair_to_double (TargetValue helpers, not under
src/) - the AVG sum/count pair materializes as the sum divided by the count (a
double in the code, modelled as an exact rational, which coincides with IEEE
division whenever the quotient is exactly representable, as in the claim's
scenario); a zero count yields the null value, modelled as none. -/
def pair_to_double (sum count : Int) : Option Rat :=
  if count ≠ 0 then some ((sum : Rat) / (count : Rat)) else none

/-- make_avg_target_value (ResultSetIteration.cpp lines 47-80, src), for the
integer / decimal argument path: the sum is read from the first slot (the
float-argument width override does not apply) and the count from the second,
then the pair is divided. The floating-point argument path reinterprets raw
IEEE bits and is not modelled (none); CHECK(agg_kind == kAVG) is none on
violation. -/
def make_avg_target_value (buff : Nat → Nat) (ptr1 compact_sz1 ptr2 compact_sz2 : Nat)
    (target_info : TargetInfo) : Option Rat :=
  if target_info.agg_kind ≠ AggKind.kAVG then none
  else
    match target_info.agg_arg_type with
    | AggArgType.integerTy =>
      pair_to_double (read_int_from_buff buff ptr1 compact_sz1)
        (read_int_from_buff buff ptr2 compact_sz2)
    | AggArgType.decimalTy =>
      pair_to_double (read_int_from_buff buff ptr1 compact_sz1)
        (read_int_from_buff buff ptr2 compact_sz2)
    | _ => none

/-- The kAVG branch of ResultSet::getTargetValueFromBufferRowwise
(ResultSetIteration.cpp lines 2396-2425, src): the first slot sits at the
row-wise target pointer with its padded width (the single-column perfect-hash
override does not apply to aggregates), the second slot right after it with
the next padded width; with valid separate varlen storage the aggregate's
second width is forced to 8. -/
def getTargetValueFromBufferRowwise_avg (q : QueryMemoryDescriptor)
    (buff : Nat → Nat) (rowwise_target_off slot_idx : Nat)
    (target_info : TargetInfo) (separate_varlen_storage_valid : Bool) : Option Rat :=
  if target_info.agg_kind = AggKind.kAVG then
    make_avg_target_value buff rowwise_target_off
      (q.getPaddedSlotWidthBytes slot_idx)
      (rowwise_target_off + q.getPaddedSlotWidthBytes slot_idx)
      (if separate_varlen_storage_valid && target_info.is_agg then 8
       else q.getPaddedSlotWidthBytes (slot_idx + 1))
      target_info
  else none

/-- C7: an AVG target stored as a two-slot sum/count pair materializes as the
sum divided by the count. -/
theorem c7_avg_two_slot_division (q : QueryMemoryDescriptor) (buff : Nat → Nat)
    (off slot_idx : Nat) (t : TargetInfo) (s cnt : Int)
    (ht : t.agg_kind = AggKind.kAVG)
    (harg : t.agg_arg_type = AggArgType.integerTy)
    (hw1 : 0 < q.getPaddedSlotWidthBytes slot_idx)
    (hw2 : 0 < q.getPaddedSlotWidthBytes (slot_idx + 1))
    (hb1 : ∀ i < q.getPaddedSlotWidthBytes slot_idx,
      buff (off + i) = byteAt s (8 * q.getPaddedSlotWidthBytes slot_idx) i)
    (hb2 : ∀ i < q.getPaddedSlotWidthBytes (slot_idx + 1),
      buff (off + q.getPaddedSlotWidthBytes slot_idx + i)
        = byteAt cnt (8 * q.getPaddedSlotWidthBytes (slot_idx + 1)) i)
    (hs_lo : -(2 ^ (8 * q.getPaddedSlotWidthBytes slot_idx - 1)) ≤ s)
    (hs_hi : s < 2 ^ (8 * q.getPaddedSlotWidthBytes slot_idx - 1))
    (hc_lo : -(2 ^ (8 * q.getPaddedSlotWidthBytes (slot_idx + 1) - 1)) ≤ cnt)
    (hc_hi : cnt < 2 ^ (8 * q.getPaddedSlotWidthBytes (slot_idx + 1) - 1))
    (hcnt : cnt ≠ 0) :
    getTargetValueFromBufferRowwise_avg q buff off slot_idx t false
      = some ((s : Rat) / (cnt : Rat)) := by
  unfold getTargetValueFromBufferRowwise_avg
  rw [if_pos ht]
  unfold make_avg_target_value
  rw [if_neg (by rw [ht]; simp), harg]
  simp only [Bool.false_and, Bool.false_eq_true, if_false]
  rw [read_int_from_buff_eq buff off _ s hw1 hb1 hs_lo hs_hi,
    read_int_from_buff_eq buff (off + q.getPaddedSlotWidthBytes slot_idx) _ cnt hw2
      (by simpa using hb2) hc_lo hc_hi]
  unfold pair_to_double
  rw [if_pos hcnt]

/-- The claim's scenario layout: two 8-byte slots holding sum and count. -/
def c7q : QueryMemoryDescriptor :=
  ⟨QueryDescriptionType.GroupByPerfectHash, false, -1, [8], 8, 1, false, [8, 8]⟩

def c7t : TargetInfo := ⟨true, AggKind.kAVG, AggArgType.integerTy, false⟩

/-- Buffer holding sum 15 in the first slot and count 3 in the second. -/
def c7buff : Nat → Nat := fun a =>
  if a < 8 then byteAt 15 64 a else byteAt 3 64 (a - 8)

theorem c7_avg_two_slot_division_witness :
    getTargetValueFromBufferRowwise_avg c7q c7buff 0 0 c7t false = some 5 := by
  have h := c7_avg_two_slot_division c7q c7buff 0 0 c7t 15 3 rfl rfl (by decide)
    (by decide) (by decide) (by decide) (by decide) (by decide) (by decide)
    (by decide) (by decide)
  rw [h]
  norm_num

/-! ## Binary search row count. -/

/-- The while loop of make_bin_search (ResultSetIteration.cpp lines 2560-2568,
src): while l != r, test emptiness at the midpoint; on the loop's reachable
states l ≤ r, so the guard is written l < r. -/
def binSearchLoop (is_empty_fn : Nat → Bool) (l r : Nat) : Nat :=
  if l < r then
    let c := (l + r) / 2
    if is_empty_fn c then binSearchLoop is_empty_fn l c
    else binSearchLoop is_empty_fn (c + 1) r
  else r
termination_by r - l
decreasing_by
  · omega
  · omega

/-- make_bin_search (ResultSetIteration.cpp lines 2553-2571, src): skip the
search when the last entry is not empty, otherwise search [l, r-1]. -/
def make_bin_search (l r : Nat) (is_empty_fn : Nat → Bool) : Nat :=
  if ¬ is_empty_fn (r - 1) then r
  else binSearchLoop is_empty_fn l (r - 1)

/-- ResultSetStorage::binSearchRowCount (ResultSetIteration.cpp lines
2575-2595, src): requires a projection layout with 8-byte effective key width
(CHECKs modelled as none); empty layouts report zero rows; otherwise binary
search on key emptiness, reading the 64-bit key per entry in the columnar or
row-wise geometry. -/
def ResultSetStorage.binSearchRowCount (s : ResultSetStorage) : Option Nat :=
  if s.query_mem_desc.getQueryDescriptionType ≠ QueryDescriptionType.Projection then
    none
  else if s.query_mem_desc.getEffectiveKeyWidth ≠ 8 then none
  else if s.query_mem_desc.getEntryCount = 0 then some 0
  else if s.query_mem_desc.didOutputColumnar then
    some (make_bin_search 0 s.query_mem_desc.getEntryCount
      (fun idx => decide (read_int_from_buff s.buff (idx * 8) 8 = EMPTY_KEY_64)))
  else
    some (make_bin_search 0 s.query_mem_desc.getEntryCount
      (fun idx => decide (read_int_from_buff s.buff
        (row_ptr_rowwise_off s.query_mem_desc idx) 8 = EMPTY_KEY_64)))

theorem binSearchLoop_spec (f : Nat → Bool) (N : Nat)
    (hmono : ∀ i j, i ≤ j → j < N → f i = true → f j = true) :
    ∀ m l r, r - l ≤ m → l ≤ r → r < N → f r = true →
      l ≤ binSearchLoop f l r ∧ binSearchLoop f l r ≤ r
      ∧ f (binSearchLoop f l r) = true
      ∧ (∀ k, l ≤ k → k < binSearchLoop f l r → f k = false) := by
  intro m
  induction m with
  | zero =>
    intro l r hm hlr hrN hfr
    have heq : binSearchLoop f l r = r := by
      rw [binSearchLoop, if_neg (by omega)]
    rw [heq]
    exact ⟨by omega, le_refl r, hfr, fun k h1 h2 => by omega⟩
  | succ mk ih =>
    intro l r hm hlr hrN hfr
    by_cases hlt : l < r
    · cases hc : f ((l + r) / 2) with
      | true =>
        have heq : binSearchLoop f l r = binSearchLoop f l ((l + r) / 2) := by
          rw [binSearchLoop, if_pos hlt]
          simp [hc]
        rw [heq]
        obtain ⟨h1, h2, h3, h4⟩ := ih l ((l + r) / 2) (by omega) (by omega)
          (by omega) hc
        exact ⟨h1, by omega, h3, h4⟩
      | false =>
        have heq : binSearchLoop f l r = binSearchLoop f ((l + r) / 2 + 1) r := by
          rw [binSearchLoop, if_pos hlt]
          simp [hc]
        rw [heq]
        obtain ⟨h1, h2, h3, h4⟩ := ih ((l + r) / 2 + 1) r (by omega) (by omega)
          hrN hfr
        refine ⟨by omega, h2, h3, ?_⟩
        intro k hk1 hk2
        rcases Nat.lt_or_ge k ((l + r) / 2 + 1) with hk | hk
        · cases hfk : f k with
          | false => rfl
          | true =>
            have := hmono k ((l + r) / 2) (by omega) (by omega) hfk
            rw [this] at hc
            exact hc
        · exact h4 k hk hk2
    · have heq : binSearchLoop f l r = r := by
        rw [binSearchLoop, if_neg hlt]
      rw [heq]
      exact ⟨by omega, le_refl r, hfr, fun k h1 h2 => by omega⟩

/-- make_bin_search finds the valid/empty boundary when no empty entry
precedes a valid one: every index below the result is valid, and the result is
either the range's end or an empty index. -/
theorem make_bin_search_spec (f : Nat → Bool) (r N : Nat)
    (hr : 0 < r) (hrN : r ≤ N)
    (hmono : ∀ i j, i ≤ j → j < N → f i = true → f j = true) :
    make_bin_search 0 r f ≤ r
    ∧ (∀ k, k < make_bin_search 0 r f → f k = false)
    ∧ (make_bin_search 0 r f = r ∨ f (make_bin_search 0 r f) = true) := by
  unfold make_bin_search
  cases hlast : f (r - 1) with
  | false =>
    rw [if_pos (by simp [hlast])]
    refine ⟨le_refl r, ?_, Or.inl rfl⟩
    intro k hk
    cases hfk : f k with
    | false => rfl
    | true =>
      have := hmono k (r - 1) (by omega) (by omega) hfk
      rw [this] at hlast
      exact hlast
  | true =>
    rw [if_neg (by simp [hlast])]
    obtain ⟨h1, h2, h3, h4⟩ := binSearchLoop_spec f N hmono (r - 1) 0 (r - 1)
      (by omega) (by omega) (by omega) hlast
    exact ⟨by omega, fun k hk => h4 k (by omega) hk, Or.inr h3⟩

/-- C8 (amended): for row-wise or columnar projection layouts with 8-byte
effective key width in which no empty entry precedes a valid one (prefix of v
valid entries, then empty entries), binSearchRowCount() returns the index of
the first empty entry, i.e. the count of leading valid entries, via
make_bin_search. The claim as frozen also covered table-function layouts, but
there the code's CHECK(query type == Projection) fires instead of returning
the boundary (see the counterexample). -/
theorem c8_binSearchRowCount_boundary (q : QueryMemoryDescriptor)
    (targets : List TargetInfo) (inits : List Int) (buff : Nat → Nat)
    (keyAt : Nat → Nat → Int) (v : Nat)
    (hty : q.query_desc_type = QueryDescriptionType.Projection)
    (hkw : q.getEffectiveKeyWidth = 8)
    (hg : 0 < q.getGroupbyColCount) (hw0 : q.groupColWidth 0 = 8)
    (hstr : q.output_columnar = false → StoresRowwiseKeys q buff keyAt)
    (hstc : q.output_columnar = true → StoresColumnarKeys q buff keyAt)
    (hv : v ≤ q.entry_count)
    (hvalid : ∀ i < v, keyAt i 0 ≠ EMPTY_KEY_64)
    (hempties : ∀ i, v ≤ i → i < q.entry_count → keyAt i 0 = EMPTY_KEY_64)
    (hrange : ∀ i < q.entry_count, -(2 ^ 63) ≤ keyAt i 0 ∧ keyAt i 0 < 2 ^ 63) :
    ResultSetStorage.binSearchRowCount ⟨q, targets, inits, buff⟩ = some v := by
  unfold ResultSetStorage.binSearchRowCount
  rw [if_neg (by
    simp only [getQueryDescriptionType_eq, hty]
    intro hc
    exact hc rfl)]
  rw [if_neg (by
    intro hc
    exact hc hkw)]
  simp only [QueryMemoryDescriptor.getEntryCount, didOutputColumnar_eq]
  by_cases hN : q.entry_count = 0
  · rw [if_pos hN]
    congr 1
    omega
  · rw [if_neg hN]
    have hmain : ∀ f : Nat → Bool,
        (∀ idx, idx < q.entry_count → f idx = decide (v ≤ idx)) →
        make_bin_search 0 q.entry_count f = v := by
      intro f hf
      have hmono : ∀ i j, i ≤ j → j < q.entry_count → f i = true → f j = true := by
        intro i j hij hj hfi
        rw [hf j hj]
        rw [hf i (by omega)] at hfi
        simp only [decide_eq_true_eq] at hfi ⊢
        omega
      obtain ⟨h1, h2, h3⟩ := make_bin_search_spec f q.entry_count q.entry_count
        (by omega) (le_refl _) hmono
      have hub : make_bin_search 0 q.entry_count f ≤ v := by
        by_contra hcon
        have hvlt : v < make_bin_search 0 q.entry_count f := by omega
        have := h2 v hvlt
        rw [hf v (by omega)] at this
        simp at this
      rcases h3 with h3 | h3
      · have : ∀ k < q.entry_count, f k = false := fun k hk => h2 k (by omega)
        by_contra hne
        have hvlt : v < q.entry_count := by omega
        have := this v hvlt
        rw [hf v hvlt] at this
        simp at this
      · by_contra hne
        have hlt : make_bin_search 0 q.entry_count f < v := by omega
        rw [hf _ (by omega)] at h3
        simp only [decide_eq_true_eq] at h3
        omega
    cases hoc : q.output_columnar with
    | true =>
      rw [if_pos rfl]
      congr 1
      apply hmain
      intro idx hidx
      have hread : read_int_from_buff buff (idx * 8) 8 = keyAt idx 0 := by
        have := read_columnar_key0 q buff keyAt idx (hstc hoc) hidx hg
          (by rw [hw0]; norm_num) (by rw [hw0]; exact (hrange idx hidx).1)
          (by rw [hw0]; exact (hrange idx hidx).2)
        rw [prepended_off_zero, hw0, Nat.zero_add] at this
        exact this
      rw [hread]
      by_cases hvi : v ≤ idx
      · rw [hempties idx hvi hidx]
        simp [hvi]
      · have := hvalid idx (by omega)
        simp [this, hvi]
    | false =>
      rw [if_neg (by simp)]
      congr 1
      apply hmain
      intro idx hidx
      have hread : read_int_from_buff buff (row_ptr_rowwise_off q idx) 8
          = keyAt idx 0 := by
        have := read_rowwise_key0 q buff keyAt idx (hstr hoc) hidx hg
          (by rw [hkw]; norm_num) (by rw [hkw]; exact (hrange idx hidx).1)
          (by rw [hkw]; exact (hrange idx hidx).2)
        rw [hkw] at this
        exact this
      rw [hread]
      by_cases hvi : v ≤ idx
      · rw [hempties idx hvi hidx]
        simp [hvi]
      · have := hvalid idx (by omega)
        simp [this, hvi]

/-- A row-wise projection storage with 3 entries, the first 2 valid. -/
def c8q : QueryMemoryDescriptor :=
  ⟨QueryDescriptionType.Projection, false, -1, [8], 8, 3, false, [8]⟩

def c8keyAt : Nat → Nat → Int := fun e _ =>
  if e < 2 then Int.ofNat e else EMPTY_KEY_64

def c8buff : Nat → Nat := fun a =>
  if a % 16 < 8 then byteAt (c8keyAt (a / 16) 0) 64 (a % 16)
  else byteAt 0 64 (a % 16 - 8)

theorem c8_binSearchRowCount_boundary_witness :
    ResultSetStorage.binSearchRowCount ⟨c8q, [], [], c8buff⟩ = some 2 :=
  c8_binSearchRowCount_boundary c8q [] [] c8buff c8keyAt 2 rfl (by decide)
    (by decide) (by decide)
    (fun _ => by unfold StoresRowwiseKeys; decide)
    (fun h => absurd h (by decide))
    (by decide) (by decide) (by decide) (by decide)

/-! ## Post-hoc entry count update. -/

/-- Modelled from the spec: ResultSetStorage::updateEntryCount (storage header
not under src/) - sets the storage descriptor's entry count (spec section 3:
projection/table-function entry count may be updated post-hoc). -/
def ResultSetStorage.updateEntryCount (s : ResultSetStorage) (new_entry_count : Nat) :
    ResultSetStorage :=
  { s with query_mem_desc := s.query_mem_desc.setEntryCount new_entry_count }

/-- The members of ResultSet that updateStorageEntryCount touches: the layout
descriptor and the optional owned primary storage (ResultSet.h, src). -/
structure ResultSetUS where
  query_mem_desc : QueryMemoryDescriptor
  storage : Option ResultSetStorage

/-- ResultSet::updateStorageEntryCount (ResultSet.h lines 246-253, src): the
CHECK that the layout is Projection or TableFunction, and the CHECK(storage_),
are modelled as none on violation (a fatal defect in the code); on success the
result set's descriptor and the storage's entry count are both set. -/
def updateStorageEntryCount (rs : ResultSetUS) (new_entry_count : Nat) :
    Option ResultSetUS :=
  if rs.query_mem_desc.getQueryDescriptionType = QueryDescriptionType.Projection
      ∨ rs.query_mem_desc.getQueryDescriptionType = QueryDescriptionType.TableFunction
  then
    match rs.storage with
    | none => none
    | some st =>
      some ⟨rs.query_mem_desc.setEntryCount new_entry_count,
        some (st.updateEntryCount new_entry_count)⟩
  else none

/-- C9: updateStorageEntryCount is permitted only for Projection or
TableFunction layouts - for any other layout its checked assertion fires
(modelled as none) - and when permitted it updates both the layout
descriptor's entry count and the storage's entry count to the new value. -/
theorem c9_updateStorageEntryCount_guard :
    (∀ (rs : ResultSetUS) (n : Nat),
      rs.query_mem_desc.query_desc_type ≠ QueryDescriptionType.Projection →
      rs.query_mem_desc.query_desc_type ≠ QueryDescriptionType.TableFunction →
      updateStorageEntryCount rs n = none)
    ∧ (∀ (rs : ResultSetUS) (st : ResultSetStorage) (n : Nat),
      (rs.query_mem_desc.query_desc_type = QueryDescriptionType.Projection
        ∨ rs.query_mem_desc.query_desc_type = QueryDescriptionType.TableFunction) →
      rs.storage = some st →
      ∃ rs', updateStorageEntryCount rs n = some rs'
        ∧ rs'.query_mem_desc.getEntryCount = n
        ∧ ∃ st', rs'.storage = some st' ∧ st'.getEntryCount = n) := by
  constructor
  · intro rs n h1 h2
    unfold updateStorageEntryCount
    rw [if_neg (by
      simp only [getQueryDescriptionType_eq]
      intro hc
      rcases hc with hc | hc
      · exact h1 hc
      · exact h2 hc)]
  · intro rs st n hty hst
    unfold updateStorageEntryCount
    rw [if_pos (by simpa only [getQueryDescriptionType_eq] using hty), hst]
    exact ⟨_, rfl, rfl, _, rfl, rfl⟩

theorem c9_updateStorageEntryCount_guard_witness :
    ∃ rs', updateStorageEntryCount
        ⟨⟨QueryDescriptionType.Projection, false, -1, [8], 8, 4, false, [8]⟩,
         some ⟨⟨QueryDescriptionType.Projection, false, -1, [8], 8, 4, false, [8]⟩,
           [], [], fun _ => 0⟩⟩ 2 = some rs'
      ∧ rs'.query_mem_desc.getEntryCount = 2
      ∧ ∃ st', rs'.storage = some st' ∧ st'.getEntryCount = 2 :=
  c9_updateStorageEntryCount_guard.2
    ⟨⟨QueryDescriptionType.Projection, false, -1, [8], 8, 4, false, [8]⟩,
     some ⟨⟨QueryDescriptionType.Projection, false, -1, [8], 8, 4, false, [8]⟩,
       [], [], fun _ => 0⟩⟩
    ⟨⟨QueryDescriptionType.Projection, false, -1, [8], 8, 4, false, [8]⟩,
      [], [], fun _ => 0⟩ 2 (Or.inl rfl) rfl

/-- A columnar table-function storage with 3 entries, all valid (table
function output buffers contain no empty entries, so the claim's
no-empty-before-valid premise holds trivially). -/
def c8tfq : QueryMemoryDescriptor :=
  ⟨QueryDescriptionType.TableFunction, false, -1, [8], 8, 3, true, [8]⟩

/-- C8 counterexample: on a table-function layout - which the frozen claim
explicitly covers - every entry is valid (isEmptyEntry reports false for all
three entries, so the first empty index is 3 and the claim predicts some 3),
yet binSearchRowCount() hits its CHECK(query type == Projection) at the top
(ResultSetIteration.cpp line 2578) and fatally asserts, modelled as none. -/
theorem c8_counterexample_table_function :
    (∀ e < 3, ResultSetStorage.isEmptyEntryAt ⟨c8tfq, [], [], fun _ => 0⟩ e
      = some false)
    ∧ ResultSetStorage.binSearchRowCount ⟨c8tfq, [], [], fun _ => 0⟩ = none
    ∧ ResultSetStorage.binSearchRowCount ⟨c8tfq, [], [], fun _ => 0⟩ ≠ some 3 := by
  refine ⟨by decide, ?_, ?_⟩
  · unfold ResultSetStorage.binSearchRowCount
    rw [if_pos (by decide)]
  · unfold ResultSetStorage.binSearchRowCount
    rw [if_pos (by decide)]
    decide
